import Mathlib

/-
  Formal verification of the FAGA browser rendering core.

  This file contains a shallow embedding, in Lean 4, of the Rust sources of
  the repository:
    * src/html/src/lib.rs      (strict markup parser building a DOM tree)
    * src/css/src/lib.rs       (simple stylesheet type used by the layout crate)
    * src/layout/src/lib.rs    (block layout engine)
    * src/paint/src/lib.rs     (display-list builder)
    * src/src/parser/css_parser.rs (fail-soft CSS parser)
    * src/src/parser/renderer.rs   (style cascade and render-tree flattening)

  Conventions of the embedding:
    * Rust f32 values are modelled as rationals; the arithmetic used by the
      embedded code (addition, subtraction, multiplication, division,
      comparison) is exact on the inputs appearing in the development.
    * Rust String / &str values are modelled as lists of characters, and a
      parser position into a string is modelled by the remaining suffix.
    * Rust HashMap is modelled as an association list; insert replaces the
      binding of an existing key (the claims proved below never depend on
      the iteration order of a map with more than one binding, which is
      unspecified for Rust HashMap).
    * Code that can abort (failed assert / unwrap on None) is modelled in the
      Option monad: a None result means the Rust code aborts.
    * Recursive parser loops are modelled with an explicit fuel argument; the
      entry points supply fuel large enough that fuel exhaustion is never the
      reason for a None result on the inputs considered in the theorems.
-/

namespace Faga

/-- Strings of the Rust sources are modelled as lists of characters. -/
abbrev Str := List Char

/-- The double-quote character. -/
def quoteD : Char := Char.ofNat 34

/-- The single-quote character. -/
def quoteS : Char := Char.ofNat 39

/-- Models Rust char::is_whitespace: the Unicode White_Space code points. -/
def isWs (c : Char) : Bool :=
  decide (c.toNat ∈ ([9, 10, 11, 12, 13, 32, 133, 160, 5760, 8192, 8193,
    8194, 8195, 8196, 8197, 8198, 8199, 8200, 8201, 8202, 8232, 8233, 8239,
    8287, 12288] : List Nat))

/-- The character class accepted by Parser::parse_tag_name in
    src/html/src/lib.rs: ASCII letters and digits. -/
def isTagNameChar (c : Char) : Bool :=
  (97 ≤ c.toNat && c.toNat ≤ 122) || (65 ≤ c.toNat && c.toNat ≤ 90) ||
    (48 ≤ c.toNat && c.toNat ≤ 57)

/-- Association-list model of Rust HashMap: insert binds the key to the new
    value, removing any previous binding.  (HashMap iteration order is
    unspecified in Rust; the model iterates newest binding first, and no
    claim below depends on the iteration order of a map with more than one
    binding.) -/
def alInsert {β : Type} (m : List (Str × β)) (k : Str) (v : β) :
    List (Str × β) :=
  (k, v) :: m.filter (fun p => !(p.1 == k))

/-- Association-list lookup, modelling HashMap::get. -/
def alGet {β : Type} (m : List (Str × β)) (k : Str) : Option β :=
  (m.find? (fun p => p.1 == k)).map (fun p => p.2)

namespace Html

/-- ElementData from src/html/src/lib.rs. -/
structure ElementData where
  tag_name : Str
  attributes : List (Str × Str)

/-- NodeType from src/html/src/lib.rs. -/
inductive NodeType where
  | text (data : Str)
  | element (e : ElementData)

/-- Node from src/html/src/lib.rs: children plus a node type. -/
inductive Node where
  | mk (children : List Node) (node_type : NodeType)

/-- The text constructor function of src/html/src/lib.rs. -/
def text (data : Str) : Node := .mk [] (.text data)

/-- The elem constructor function of src/html/src/lib.rs. -/
def elem (name : Str) (attrs : List (Str × Str)) (children : List Node) :
    Node :=
  .mk children (.element ⟨name, attrs⟩)

/-- Parser::next_char: the character at the current position, or the
    default character when at end of input. -/
def next_char (s : Str) : Char := s.headD (Char.ofNat 0)

/-- Parser::parse_text: consume until the next tag-open character. -/
def parse_text (s : Str) : Node × Str :=
  (text (s.takeWhile (fun c => c != Char.ofNat 60)),
   s.dropWhile (fun c => c != Char.ofNat 60))

/-- Parser::parse_tag_name: consume letters and digits. -/
def parse_tag_name (s : Str) : Str × Str :=
  (s.takeWhile isTagNameChar, s.dropWhile isTagNameChar)

/-- Parser::parse_attr_value: the value must be framed by a matching pair of
    single or double quotes; anything else aborts the parse (None). -/
def parse_attr_value (s : Str) : Option (Str × Str) :=
  match s with
  | [] => none
  | q :: rest =>
    if q == quoteD || q == quoteS then
      match rest.dropWhile (fun c => c != q) with
      | [] => none
      | _ :: r2 => some (rest.takeWhile (fun c => c != q), r2)
    else none

/-- Parser::parse_attr: a name, an equals sign, then a quoted value. -/
def parse_attr (s : Str) : Option ((Str × Str) × Str) :=
  let n := parse_tag_name s
  match n.2 with
  | [] => none
  | c :: s2 =>
    if c == '=' then
      match parse_attr_value s2 with
      | none => none
      | some (v, s3) => some ((n.1, v), s3)
    else none

/-- The loop of Parser::parse_attributes. -/
def parse_attrs_loop : Nat → List (Str × Str) → Str →
    Option (List (Str × Str) × Str)
  | 0, _, _ => none
  | fuel + 1, acc, s =>
    if next_char s == '>' then some (acc, s)
    else
      match parse_attr s with
      | none => none
      | some ((n, v), s2) =>
        parse_attrs_loop fuel (alInsert acc n v) (s2.dropWhile isWs)

/-- Parser::parse_attributes: skip whitespace, then read attributes until
    the closing angle of the opening tag. -/
def parse_attributes (fuel : Nat) (s : Str) :
    Option (List (Str × Str) × Str) :=
  parse_attrs_loop fuel [] (s.dropWhile isWs)

/-- True when the input starts with a closing-tag marker. -/
def startsCloseTag (s : Str) : Bool := List.isPrefixOf ['<', '/'] s

mutual

/-- Parser::parse_nodes: parse sibling nodes until end of input or the start
    of a closing tag. -/
def parse_nodes : Nat → Str → Option (List Node × Str)
  | 0, _ => none
  | fuel + 1, s =>
    let s1 := s.dropWhile isWs
    if s1.isEmpty || startsCloseTag s1 then some ([], s1)
    else
      match parse_node fuel s1 with
      | none => none
      | some (n, s2) =>
        match parse_nodes fuel s2 with
        | none => none
        | some (ns, s3) => some (n :: ns, s3)

/-- Parser::parse_node: an element when the next character opens a tag,
    otherwise a text node. -/
def parse_node : Nat → Str → Option (Node × Str)
  | 0, _ => none
  | fuel + 1, s =>
    if next_char s == '<' then parse_element fuel s
    else some (parse_text s)

/-- Parser::parse_element: an opening tag, children, then a closing tag whose
    name must equal the opening tag name; every violated assert and every
    consume_char at end of input aborts the parse (None). -/
def parse_element : Nat → Str → Option (Node × Str)
  | 0, _ => none
  | fuel + 1, s =>
    match s with
    | [] => none
    | c0 :: s1 =>
      if c0 != '<' then none
      else
        let tn := parse_tag_name s1
        match parse_attributes fuel tn.2 with
        | none => none
        | some (attrs, s3) =>
          match s3 with
          | [] => none
          | c1 :: s4 =>
            if c1 != '>' then none
            else
              match parse_nodes fuel s4 with
              | none => none
              | some (children, s5) =>
                match s5 with
                | [] => none
                | c2 :: s6 =>
                  if c2 != '<' then none
                  else
                    match s6 with
                    | [] => none
                    | c3 :: s7 =>
                      if c3 != '/' then none
                      else
                        let cn := parse_tag_name s7
                        if cn.1 != tn.1 then none
                        else
                          match cn.2 with
                          | [] => none
                          | c4 :: s9 =>
                            if c4 != '>' then none
                            else some (elem tn.1 attrs children, s9)

end

/-- The top-level parse function of src/html/src/lib.rs: parse the top-level
    nodes; a single node is the root, otherwise an html wrapper is
    synthesized.  The fuel bound length + 1 dominates the number of loop
    iterations, each of which consumes at least one character. -/
def parse (source : Str) : Option Node :=
  match parse_nodes (source.length + 1) source with
  | none => none
  | some (nodes, _) =>
    match nodes with
    | [n] => some n
    | _ => some (elem ( "html".toList) [] nodes)

end Html

end Faga

/-! ### Helper lemmas about character classes and takeWhile/dropWhile -/

theorem takeWhile_append_stop (p : Char → Bool) (xs : Faga.Str) (y : Char)
    (ys : Faga.Str) (h : ∀ a ∈ xs, p a = true) (hy : p y = false) :
    (xs ++ y :: ys).takeWhile p = xs := by
  induction xs with
  | nil => simp [List.takeWhile_cons, hy]
  | cons a l ih =>
    have ha : p a = true := h a (List.mem_cons_self a l)
    simp only [List.cons_append, List.takeWhile_cons, ha, if_true]
    rw [ih (fun b hb => h b (List.mem_cons_of_mem a hb))]

theorem dropWhile_append_stop (p : Char → Bool) (xs : Faga.Str) (y : Char)
    (ys : Faga.Str) (h : ∀ a ∈ xs, p a = true) (hy : p y = false) :
    (xs ++ y :: ys).dropWhile p = y :: ys := by
  induction xs with
  | nil => simp [List.dropWhile_cons, hy]
  | cons a l ih =>
    have ha : p a = true := h a (List.mem_cons_self a l)
    simp only [List.cons_append, List.dropWhile_cons, ha, if_true]
    exact ih (fun b hb => h b (List.mem_cons_of_mem a hb))

theorem takeWhile_all (p : Char → Bool) (xs : Faga.Str)
    (h : ∀ a ∈ xs, p a = true) : xs.takeWhile p = xs := by
  induction xs with
  | nil => rfl
  | cons a l ih =>
    simp only [List.takeWhile_cons, h a (List.mem_cons_self a l), if_true]
    rw [ih (fun b hb => h b (List.mem_cons_of_mem a hb))]

theorem dropWhile_all (p : Char → Bool) (xs : Faga.Str)
    (h : ∀ a ∈ xs, p a = true) : xs.dropWhile p = [] := by
  induction xs with
  | nil => rfl
  | cons a l ih =>
    simp only [List.dropWhile_cons, h a (List.mem_cons_self a l), if_true]
    exact ih (fun b hb => h b (List.mem_cons_of_mem a hb))

theorem tagChar_not_ws {a : Char} (h : Faga.isTagNameChar a = true) :
    Faga.isWs a = false := by
  simp only [Faga.isTagNameChar, Bool.or_eq_true, Bool.and_eq_true,
    decide_eq_true_eq] at h
  simp only [Faga.isWs, decide_eq_false_iff_not, List.mem_cons,
    List.not_mem_nil]
  push_neg
  simp only [not_false_eq_true, and_true]
  omega

theorem tagChar_beq_false {a : Char} (h : Faga.isTagNameChar a = true)
    {c : Char} (hc : Faga.isTagNameChar c = false) :
    (a == c) = false ∧ (c == a) = false := by
  have hne : a ≠ c := by
    intro e
    rw [e, hc] at h
    exact Bool.noConfusion h
  exact ⟨beq_eq_false_iff_ne.mpr hne, beq_eq_false_iff_ne.mpr hne.symm⟩

/-! ### Claim C4: the markup parser is fail-fast -/

theorem parse_mismatch_none (f : Nat) (t1 t2 : Faga.Str)
    (h1 : ∀ a ∈ t1, Faga.isTagNameChar a = true) (n1 : t1 ≠ [])
    (h2 : ∀ a ∈ t2, Faga.isTagNameChar a = true)
    (hne : t2 ≠ t1) :
    Faga.Html.parse_nodes (f + 4)
      ('<' :: (t1 ++ '>' :: '<' :: '/' :: (t2 ++ ['>']))) = none := by
  obtain ⟨a, t1', rfl⟩ : ∃ a l, t1 = a :: l := by
    cases t1 with
    | nil => exact absurd rfl n1
    | cons a l => exact ⟨a, l, rfl⟩
  have hta : Faga.isTagNameChar a = true := h1 a (List.mem_cons_self a _)
  have hlt : Faga.isWs '<' = false := by decide
  have hgt : Faga.isWs '>' = false := by decide
  have hdiv : Faga.isTagNameChar '/' = false := by decide
  have hgtc : Faga.isTagNameChar '>' = false := by decide
  have hba : ('/' == a) = false := (tagChar_beq_false hta hdiv).2
  have h1' : ∀ b ∈ t1', Faga.isTagNameChar b = true :=
    fun b hb => h1 b (List.mem_cons_of_mem a hb)
  have htk1 := takeWhile_append_stop Faga.isTagNameChar t1' '>'
    ('<' :: '/' :: (t2 ++ ['>'])) h1' hgtc
  have hdr1 := dropWhile_append_stop Faga.isTagNameChar t1' '>'
    ('<' :: '/' :: (t2 ++ ['>'])) h1' hgtc
  have htk2 := takeWhile_append_stop Faga.isTagNameChar t2 '>' [] h2 hgtc
  have hdr2 := dropWhile_append_stop Faga.isTagNameChar t2 '>' [] h2 hgtc
  have hne2 : (t2 == a :: t1') = false := beq_eq_false_iff_ne.mpr hne
  have hne3 : (t2 != a :: t1') = true := by simp [bne, hne2]
  simp only [Faga.Html.parse_nodes, Faga.Html.parse_node,
    Faga.Html.parse_element, Faga.Html.parse_attributes,
    Faga.Html.parse_attrs_loop, Faga.Html.parse_tag_name,
    Faga.Html.next_char, Faga.Html.startsCloseTag, List.cons_append,
    List.dropWhile_cons, List.takeWhile_cons, List.isPrefixOf,
    List.isEmpty_cons, List.headD_cons,
    hlt, hgt, hdiv, hgtc, hba, htk1, hdr1, htk2, hdr2, hne2, hne3, hta,
    beq_self_eq_true, bne_self_eq_false, Bool.false_or, Bool.true_and,
    Bool.and_true, Bool.and_false, Bool.false_and, Bool.or_false,
    Bool.not_false, Bool.not_true, if_true, if_false, reduceCtorEq]

theorem parse_eof_none (f : Nat) (t1 : Faga.Str)
    (h1 : ∀ a ∈ t1, Faga.isTagNameChar a = true) (n1 : t1 ≠ []) :
    Faga.Html.parse_nodes (f + 4) ('<' :: (t1 ++ ['>'])) = none := by
  obtain ⟨a, t1', rfl⟩ : ∃ a l, t1 = a :: l := by
    cases t1 with
    | nil => exact absurd rfl n1
    | cons a l => exact ⟨a, l, rfl⟩
  have hta : Faga.isTagNameChar a = true := h1 a (List.mem_cons_self a _)
  have hlt : Faga.isWs '<' = false := by decide
  have hgt : Faga.isWs '>' = false := by decide
  have hdiv : Faga.isTagNameChar '/' = false := by decide
  have hgtc : Faga.isTagNameChar '>' = false := by decide
  have hba : ('/' == a) = false := (tagChar_beq_false hta hdiv).2
  have h1' : ∀ b ∈ t1', Faga.isTagNameChar b = true :=
    fun b hb => h1 b (List.mem_cons_of_mem a hb)
  have htk1 := takeWhile_append_stop Faga.isTagNameChar t1' '>' [] h1' hgtc
  have hdr1 := dropWhile_append_stop Faga.isTagNameChar t1' '>' [] h1' hgtc
  simp only [Faga.Html.parse_nodes, Faga.Html.parse_node,
    Faga.Html.parse_element, Faga.Html.parse_attributes,
    Faga.Html.parse_attrs_loop, Faga.Html.parse_tag_name,
    Faga.Html.next_char, Faga.Html.startsCloseTag, List.cons_append,
    List.dropWhile_cons, List.takeWhile_cons, List.dropWhile_nil,
    List.isPrefixOf, List.isEmpty_cons, List.isEmpty_nil, List.headD_cons,
    hlt, hgt, hdiv, hgtc, hba, htk1, hdr1, hta,
    beq_self_eq_true, bne_self_eq_false, Bool.false_or, Bool.true_or,
    Bool.true_and, Bool.and_true, Bool.and_false, Bool.false_and,
    Bool.or_false, Bool.not_false, Bool.not_true, if_true, if_false,
    reduceCtorEq]

theorem parse_unquoted_none (f : Nat) (t1 nm rest : Faga.Str) (c : Char)
    (h1 : ∀ a ∈ t1, Faga.isTagNameChar a = true) (n1 : t1 ≠ [])
    (hnm : ∀ a ∈ nm, Faga.isTagNameChar a = true) (nn : nm ≠ [])
    (hq1 : (c == Faga.quoteD) = false) (hq2 : (c == Faga.quoteS) = false) :
    Faga.Html.parse_nodes (f + 4)
      ('<' :: (t1 ++ ' ' :: (nm ++ '=' :: c :: rest))) = none := by
  obtain ⟨a, t1', rfl⟩ : ∃ a l, t1 = a :: l := by
    cases t1 with
    | nil => exact absurd rfl n1
    | cons a l => exact ⟨a, l, rfl⟩
  obtain ⟨b, nm', rfl⟩ : ∃ b l, nm = b :: l := by
    cases nm with
    | nil => exact absurd rfl nn
    | cons b l => exact ⟨b, l, rfl⟩
  have hta : Faga.isTagNameChar a = true := h1 a (List.mem_cons_self a _)
  have htb : Faga.isTagNameChar b = true := hnm b (List.mem_cons_self b _)
  have hlt : Faga.isWs '<' = false := by decide
  have hdiv : Faga.isTagNameChar '/' = false := by decide
  have hgtc : Faga.isTagNameChar '>' = false := by decide
  have hspc : Faga.isTagNameChar ' ' = false := by decide
  have heqc : Faga.isTagNameChar '=' = false := by decide
  have hwsp : Faga.isWs ' ' = true := by decide
  have hba : ('/' == a) = false := (tagChar_beq_false hta hdiv).2
  have hnwsb : Faga.isWs b = false := tagChar_not_ws htb
  have hbgt : (b == '>') = false := (tagChar_beq_false htb hgtc).1
  have h1' : ∀ x ∈ t1', Faga.isTagNameChar x = true :=
    fun x hx => h1 x (List.mem_cons_of_mem a hx)
  have hnm' : ∀ x ∈ nm', Faga.isTagNameChar x = true :=
    fun x hx => hnm x (List.mem_cons_of_mem b hx)
  have htk1 := takeWhile_append_stop Faga.isTagNameChar t1' ' '
    (b :: (nm' ++ '=' :: c :: rest)) h1' hspc
  have hdr1 := dropWhile_append_stop Faga.isTagNameChar t1' ' '
    (b :: (nm' ++ '=' :: c :: rest)) h1' hspc
  have htk2 := takeWhile_append_stop Faga.isTagNameChar nm' '='
    (c :: rest) hnm' heqc
  have hdr2 := dropWhile_append_stop Faga.isTagNameChar nm' '='
    (c :: rest) hnm' heqc
  simp only [Faga.Html.parse_nodes, Faga.Html.parse_node,
    Faga.Html.parse_element, Faga.Html.parse_attributes,
    Faga.Html.parse_attrs_loop, Faga.Html.parse_attr,
    Faga.Html.parse_attr_value, Faga.Html.parse_tag_name,
    Faga.Html.next_char, Faga.Html.startsCloseTag, List.cons_append,
    List.dropWhile_cons, List.takeWhile_cons, List.dropWhile_nil,
    List.isPrefixOf, List.isEmpty_cons, List.isEmpty_nil, List.headD_cons,
    hlt, hdiv, hgtc, hspc, heqc, hwsp, hba, hnwsb, hbgt, hta, htb,
    htk1, hdr1, htk2, hdr2, hq1, hq2,
    beq_self_eq_true, bne_self_eq_false, Bool.false_or, Bool.true_or,
    Bool.true_and, Bool.and_true, Bool.and_false, Bool.false_and,
    Bool.or_false, Bool.or_self, Bool.not_false, Bool.not_true, if_true,
    if_false, reduceCtorEq]

theorem parse_unterminated_none (f : Nat) (t1 nm v : Faga.Str)
    (h1 : ∀ a ∈ t1, Faga.isTagNameChar a = true) (n1 : t1 ≠ [])
    (hnm : ∀ a ∈ nm, Faga.isTagNameChar a = true) (nn : nm ≠ [])
    (hv : ∀ x ∈ v, (x != Faga.quoteD) = true) :
    Faga.Html.parse_nodes (f + 4)
      ('<' :: (t1 ++ ' ' :: (nm ++ '=' :: Faga.quoteD :: v))) = none := by
  obtain ⟨a, t1', rfl⟩ : ∃ a l, t1 = a :: l := by
    cases t1 with
    | nil => exact absurd rfl n1
    | cons a l => exact ⟨a, l, rfl⟩
  obtain ⟨b, nm', rfl⟩ : ∃ b l, nm = b :: l := by
    cases nm with
    | nil => exact absurd rfl nn
    | cons b l => exact ⟨b, l, rfl⟩
  have hta : Faga.isTagNameChar a = true := h1 a (List.mem_cons_self a _)
  have htb : Faga.isTagNameChar b = true := hnm b (List.mem_cons_self b _)
  have hlt : Faga.isWs '<' = false := by decide
  have hdiv : Faga.isTagNameChar '/' = false := by decide
  have hgtc : Faga.isTagNameChar '>' = false := by decide
  have hspc : Faga.isTagNameChar ' ' = false := by decide
  have heqc : Faga.isTagNameChar '=' = false := by decide
  have hwsp : Faga.isWs ' ' = true := by decide
  have hba : ('/' == a) = false := (tagChar_beq_false hta hdiv).2
  have hnwsb : Faga.isWs b = false := tagChar_not_ws htb
  have hbgt : (b == '>') = false := (tagChar_beq_false htb hgtc).1
  have h1' : ∀ x ∈ t1', Faga.isTagNameChar x = true :=
    fun x hx => h1 x (List.mem_cons_of_mem a hx)
  have hnm' : ∀ x ∈ nm', Faga.isTagNameChar x = true :=
    fun x hx => hnm x (List.mem_cons_of_mem b hx)
  have htk1 := takeWhile_append_stop Faga.isTagNameChar t1' ' '
    (b :: (nm' ++ '=' :: Faga.quoteD :: v)) h1' hspc
  have hdr1 := dropWhile_append_stop Faga.isTagNameChar t1' ' '
    (b :: (nm' ++ '=' :: Faga.quoteD :: v)) h1' hspc
  have htk2 := takeWhile_append_stop Faga.isTagNameChar nm' '='
    (Faga.quoteD :: v) hnm' heqc
  have hdr2 := dropWhile_append_stop Faga.isTagNameChar nm' '='
    (Faga.quoteD :: v) hnm' heqc
  have hdrv := dropWhile_all (fun x => x != Faga.quoteD) v hv
  simp only [Faga.Html.parse_nodes, Faga.Html.parse_node,
    Faga.Html.parse_element, Faga.Html.parse_attributes,
    Faga.Html.parse_attrs_loop, Faga.Html.parse_attr,
    Faga.Html.parse_attr_value, Faga.Html.parse_tag_name,
    Faga.Html.next_char, Faga.Html.startsCloseTag, List.cons_append,
    List.dropWhile_cons, List.takeWhile_cons, List.dropWhile_nil,
    List.isPrefixOf, List.isEmpty_cons, List.isEmpty_nil, List.headD_cons,
    hlt, hdiv, hgtc, hspc, heqc, hwsp, hba, hnwsb, hbgt, hta, htb,
    htk1, hdr1, htk2, hdr2, hdrv,
    beq_self_eq_true, bne_self_eq_false, Bool.false_or, Bool.true_or,
    Bool.true_and, Bool.and_true, Bool.and_false, Bool.false_and,
    Bool.or_false, Bool.or_self, Bool.not_false, Bool.not_true, if_true,
    if_false, reduceCtorEq]

/-- C4: for every input in which an element's closing tag name does not equal
    its opening tag name, or the input ends before the element is closed, or
    an attribute value is not enclosed in matching quotes (wrong opening
    character, or an opening quote that is never closed), the markup parser
    aborts the whole parse with a fatal error and returns no tree: the failure
    propagates to the top and the parser never recovers. -/
theorem c4_markup_fail_fast (t1 t2 nm v rest : Faga.Str) (c : Char)
    (h1 : t1 ≠ [] ∧ ∀ a ∈ t1, Faga.isTagNameChar a = true)
    (h2 : ∀ a ∈ t2, Faga.isTagNameChar a = true)
    (hnm : nm ≠ [] ∧ ∀ a ∈ nm, Faga.isTagNameChar a = true)
    (hne : t1 ≠ t2)
    (hcq : c ≠ Faga.quoteD ∧ c ≠ Faga.quoteS)
    (hv : ∀ x ∈ v, x ≠ Faga.quoteD) :
    Faga.Html.parse ('<' :: (t1 ++ '>' :: '<' :: '/' :: (t2 ++ ['>']))) = none
    ∧ Faga.Html.parse ('<' :: (t1 ++ ['>'])) = none
    ∧ Faga.Html.parse ('<' :: (t1 ++ ' ' :: (nm ++ '=' :: c :: rest))) = none
    ∧ Faga.Html.parse
        ('<' :: (t1 ++ ' ' :: (nm ++ '=' :: Faga.quoteD :: v))) = none := by
  have hpos : 0 < t1.length := List.length_pos.mpr h1.1
  have hq1 : (c == Faga.quoteD) = false := beq_eq_false_iff_ne.mpr hcq.1
  have hq2 : (c == Faga.quoteS) = false := beq_eq_false_iff_ne.mpr hcq.2
  have hvb : ∀ x ∈ v, (x != Faga.quoteD) = true := by
    intro x hx
    simpa [bne] using beq_eq_false_iff_ne.mpr (hv x hx)
  refine ⟨?_, ?_, ?_, ?_⟩
  · have hlen : ('<' :: (t1 ++ '>' :: '<' :: '/' :: (t2 ++ ['>']))).length + 1
        = (('<' :: (t1 ++ '>' :: '<' :: '/' :: (t2 ++ ['>']))).length - 3)
          + 4 := by
      simp only [List.length_cons, List.length_append]
      omega
    rw [Faga.Html.parse, hlen,
      parse_mismatch_none _ t1 t2 h1.2 h1.1 h2 (Ne.symm hne)]
  · have hlen : ('<' :: (t1 ++ ['>'])).length + 1
        = (('<' :: (t1 ++ ['>'])).length - 3) + 4 := by
      simp only [List.length_cons, List.length_append]
      omega
    rw [Faga.Html.parse, hlen, parse_eof_none _ t1 h1.2 h1.1]
  · have hlen : ('<' :: (t1 ++ ' ' :: (nm ++ '=' :: c :: rest))).length + 1
        = (('<' :: (t1 ++ ' ' :: (nm ++ '=' :: c :: rest))).length - 3)
          + 4 := by
      simp only [List.length_cons, List.length_append]
      omega
    rw [Faga.Html.parse, hlen,
      parse_unquoted_none _ t1 nm rest c h1.2 h1.1 hnm.2 hnm.1 hq1 hq2]
  · have hlen :
        ('<' :: (t1 ++ ' ' :: (nm ++ '=' :: Faga.quoteD :: v))).length + 1
        = (('<' :: (t1 ++ ' ' :: (nm ++ '=' :: Faga.quoteD :: v))).length - 3)
          + 4 := by
      simp only [List.length_cons, List.length_append]
      omega
    rw [Faga.Html.parse, hlen,
      parse_unterminated_none _ t1 nm v h1.2 h1.1 hnm.2 hnm.1 hvb]

/-- Witness for C4 at a concrete input: opening tag div, closing tag span,
    attribute name id, unquoted value starting with x, unterminated
    double-quoted value v. -/
theorem c4_markup_fail_fast_witness :
    ((( "div".toList) : Faga.Str) ≠ [] ∧
      ∀ a ∈ (( "div".toList) : Faga.Str), Faga.isTagNameChar a = true)
    ∧ (∀ a ∈ (( "span".toList) : Faga.Str), Faga.isTagNameChar a = true)
    ∧ ((( "id".toList) : Faga.Str) ≠ [] ∧
      ∀ a ∈ (( "id".toList) : Faga.Str), Faga.isTagNameChar a = true)
    ∧ (( "div".toList) : Faga.Str) ≠ ( "span".toList)
    ∧ ('x' ≠ Faga.quoteD ∧ 'x' ≠ Faga.quoteS)
    ∧ (∀ a ∈ (( "v".toList) : Faga.Str), a ≠ Faga.quoteD)
    ∧ (Faga.Html.parse
        ('<' :: (( "div".toList) ++ '>' :: '<' :: '/' ::
          (( "span".toList) ++ ['>']))) = none
      ∧ Faga.Html.parse ('<' :: (( "div".toList) ++ ['>'])) = none
      ∧ Faga.Html.parse ('<' :: (( "div".toList) ++ ' ' ::
          (( "id".toList) ++ '=' :: 'x' :: []))) = none
      ∧ Faga.Html.parse ('<' :: (( "div".toList) ++ ' ' ::
          (( "id".toList) ++ '=' :: Faga.quoteD :: ( "v".toList)))) = none) :=
  ⟨⟨by decide, by decide⟩, by decide, ⟨by decide, by decide⟩, by decide,
    ⟨by decide, by decide⟩, by decide,
    c4_markup_fail_fast ( "div".toList) ( "span".toList) ( "id".toList)
      ( "v".toList) [] 'x' ⟨by decide, by decide⟩ (by decide)
      ⟨by decide, by decide⟩ (by decide) ⟨by decide, by decide⟩ (by decide)⟩

namespace Faga

namespace Css

/-- Unit from src/css/src/lib.rs: only pixels are supported. -/
inductive CssUnit where
  | px
deriving DecidableEq

/-- Value from src/css/src/lib.rs: keyword, pixel length, or RGBA color. -/
inductive Value where
  | keyword (s : Str)
  | length (v : ℚ) (u : CssUnit)
  | colorValue (r g b a : Fin 256)
deriving DecidableEq

/-- PropertyMap from src/css/src/lib.rs (a HashMap in the source). -/
abbrev PropertyMap := List (Str × Value)

/-- StyledNode from src/css/src/lib.rs: the DOM node it refers to, the
    specified property values, and the styled children. -/
inductive StyledNode where
  | mk (node : Html.Node) (specified_values : PropertyMap)
      (children : List StyledNode)

/-- The node field of a StyledNode. -/
def StyledNode.node : StyledNode → Html.Node
  | .mk n _ _ => n

/-- The specified_values field of a StyledNode. -/
def StyledNode.specified_values : StyledNode → PropertyMap
  | .mk _ sv _ => sv

/-- The children field of a StyledNode. -/
def StyledNode.children : StyledNode → List StyledNode
  | .mk _ _ cs => cs

end Css

namespace Layout

/-- Rect from src/layout/src/lib.rs. -/
structure Rect where
  x : ℚ
  y : ℚ
  width : ℚ
  height : ℚ
deriving DecidableEq

/-- The Default instance of Rect: all components zero. -/
def Rect.default : Rect := ⟨0, 0, 0, 0⟩

/-- EdgeSizes from src/layout/src/lib.rs. -/
structure EdgeSizes where
  left : ℚ
  right : ℚ
  top : ℚ
  bottom : ℚ
deriving DecidableEq

/-- The Default instance of EdgeSizes: all components zero. -/
def EdgeSizes.default : EdgeSizes := ⟨0, 0, 0, 0⟩

/-- Dimensions from src/layout/src/lib.rs. -/
structure Dimensions where
  content : Rect
  padding : EdgeSizes
  border : EdgeSizes
  margin : EdgeSizes
deriving DecidableEq

/-- The Default instance of Dimensions. -/
def Dimensions.default : Dimensions :=
  ⟨Rect.default, EdgeSizes.default, EdgeSizes.default, EdgeSizes.default⟩

/-- EdgeSizes::box_height from src/layout/src/lib.rs. -/
def EdgeSizes.box_height (e : EdgeSizes) : ℚ := e.top + e.bottom

/-- BoxType from src/layout/src/lib.rs. -/
inductive BoxType where
  | blockNode (node : Css.StyledNode)
  | inlineNode (node : Css.StyledNode)
  | anonymousBlock

/-- LayoutBox from src/layout/src/lib.rs. -/
inductive LayoutBox where
  | mk (dimensions : Dimensions) (box_type : BoxType)
      (children : List LayoutBox)

/-- The dimensions field of a LayoutBox. -/
def LayoutBox.dimensions : LayoutBox → Dimensions
  | .mk d _ _ => d

/-- The box_type field of a LayoutBox. -/
def LayoutBox.box_type : LayoutBox → BoxType
  | .mk _ t _ => t

/-- The children field of a LayoutBox. -/
def LayoutBox.children : LayoutBox → List LayoutBox
  | .mk _ _ cs => cs

/-- to_px from src/layout/src/lib.rs: pixel lengths convert to their value,
    everything else (keywords, including auto, and colors) to 0. -/
def to_px : Css.Value → ℚ
  | .length v .px => v
  | _ => 0

/-- calculate_width from src/layout/src/lib.rs, acting on the box's default
    dimensions: resolves the content width and the horizontal margins from
    the node's specified values and the containing block. -/
def calculate_width (sv : Css.PropertyMap) (containing_block : Dimensions) :
    Dimensions :=
  let zero := Css.Value.length 0 .px
  let auto := Css.Value.keyword ( "auto".toList)
  let width := (alGet sv ( "width".toList)).getD auto
  let margin_left := (alGet sv ( "margin-left".toList)).getD zero
  let margin_right := (alGet sv ( "margin-right".toList)).getD zero
  let total_width := containing_block.content.width
  let d0 := Dimensions.default
  let d1 :=
    match width with
    | .keyword s =>
      if s = ( "auto".toList) then
        { d0 with content := { d0.content with
            width := total_width - to_px margin_left - to_px margin_right } }
      else d0
    | w => { d0 with content := { d0.content with width := to_px w } }
  { d1 with margin := { d1.margin with
      left := to_px margin_left, right := to_px margin_right } }

/-- The explicit-height check of layout_tree in src/layout/src/lib.rs:
    a height declaration overrides only when it is a pixel length. -/
def declaredHeight (sv : Css.PropertyMap) : Option ℚ :=
  match alGet sv ( "height".toList) with
  | some (.length h .px) => some h
  | _ => none

mutual

/-- layout_tree from src/layout/src/lib.rs: width resolution, positioning
    against the containing block, vertical stacking of children, and height
    accumulation with explicit-height override. -/
def layout_tree (node : Css.StyledNode) (containing_block : Dimensions) :
    LayoutBox :=
  match node with
  | .mk nd sv cs =>
    let d1 := calculate_width sv containing_block
    let cx := containing_block.content.x + d1.margin.left + d1.border.left
      + d1.padding.left
    let cy := containing_block.content.y + d1.margin.top + d1.border.top
      + d1.padding.top
    let d2 := { d1 with content := { d1.content with x := cx, y := cy } }
    let r := layout_children cs d2 cy
    let accumulated := r.2 - cy
    let h :=
      match declaredHeight sv with
      | some hv => hv
      | none => accumulated
    LayoutBox.mk { d2 with content := { d2.content with height := h } }
      (.blockNode (.mk nd sv cs)) r.1

/-- The child loop of layout_tree: each child is laid out against the
    parent's dimensions with content height zeroed and content y advanced by
    the running total; the running total advances by the child's margin box
    height plus its content height. -/
def layout_children (cs : List Css.StyledNode) (parent : Dimensions)
    (child_y : ℚ) : List LayoutBox × ℚ :=
  match cs with
  | [] => ([], child_y)
  | c :: rest =>
    let parent_dims := { parent with content :=
      { parent.content with height := 0, y := child_y } }
    let child_box := layout_tree c parent_dims
    let y2 := child_y + child_box.dimensions.margin.box_height
      + child_box.dimensions.content.height
    let r := layout_children rest parent y2
    (child_box :: r.1, r.2)

end

/-- The per-child stacking amount of layout_tree: the child's margin box
    height plus its content height (the claim's margin-box height:
    content height + margin-top + margin-bottom). -/
def LayoutBox.stackAdvance (b : LayoutBox) : ℚ :=
  b.dimensions.margin.box_height + b.dimensions.content.height

end Layout

end Faga

/-! ### Claim C1: fixed width with two auto margins -/

/-- Unfolding of to_px on keyword values. -/
theorem to_px_keyword (s : Faga.Str) :
    Faga.Layout.to_px (.keyword s) = 0 := rfl

/-- Unfolding of to_px on color values. -/
theorem to_px_color (r g b a : Fin 256) :
    Faga.Layout.to_px (.colorValue r g b a) = 0 := rfl

/-- Unfolding of to_px on pixel lengths. -/
theorem to_px_length (v : Rat) :
    Faga.Layout.to_px (.length v .px) = v := rfl

/-- Concrete node for C1: width 600 px, margin-left and margin-right auto. -/
def c1Node : Faga.Css.StyledNode :=
  .mk (Faga.Html.elem ( "div".toList) [] [])
    [(( "width".toList), .length 600 .px),
     (( "margin-left".toList), .keyword ( "auto".toList)),
     (( "margin-right".toList), .keyword ( "auto".toList))] []

/-- Concrete containing block for C1: content width 1200 px at the origin. -/
def c1Cb : Faga.Layout.Dimensions :=
  { content := { x := 0, y := 0, width := 1200, height := 0 },
    padding := Faga.Layout.EdgeSizes.default,
    border := Faga.Layout.EdgeSizes.default,
    margin := Faga.Layout.EdgeSizes.default }

/-- C1 (amended): when the resolved width is a fixed pixel length and both
    horizontal margins are the keyword auto, layout_tree converts the auto
    margins to 0 px, so the box's content x equals the containing block's
    content x (offset 0): no auto-centering takes place. -/
theorem c1_auto_margins_no_centering (n : Faga.Css.StyledNode)
    (cb : Faga.Layout.Dimensions) (w : ℚ)
    (hw : Faga.alGet n.specified_values ( "width".toList)
      = some (.length w .px))
    (hml : Faga.alGet n.specified_values ( "margin-left".toList)
      = some (.keyword ( "auto".toList)))
    (hmr : Faga.alGet n.specified_values ( "margin-right".toList)
      = some (.keyword ( "auto".toList))) :
    (Faga.Layout.layout_tree n cb).dimensions.content.x = cb.content.x
    ∧ (Faga.Layout.layout_tree n cb).dimensions.content.width = w := by
  obtain ⟨nd, sv, cs⟩ := n
  simp only [Faga.Css.StyledNode.specified_values] at hw hml hmr
  refine ⟨?_, ?_⟩ <;>
    simp only [Faga.Layout.layout_tree, Faga.Layout.calculate_width, hw, hml,
      hmr, Option.getD_some, to_px_keyword, to_px_length, to_px_color,
      Faga.Layout.LayoutBox.dimensions, Faga.Layout.Dimensions.default,
      Faga.Layout.EdgeSizes.default, Faga.Layout.Rect.default] <;>
    norm_num

/-- C1 counterexample: the claim predicts content x-offset (1200-600)/2 =
    300 for the concrete 600 px block in the 1200 px containing block; the
    code produces offset 0. -/
theorem c1_counterexample :
    ¬ ((Faga.Layout.layout_tree c1Node c1Cb).dimensions.content.x
        = c1Cb.content.x + (1200 - 600) / 2) := by
  have hx : (Faga.Layout.layout_tree c1Node c1Cb).dimensions.content.x = 0 := by
    simp [c1Node, Faga.Layout.layout_tree, Faga.Layout.calculate_width,
      Faga.Layout.LayoutBox.dimensions, Faga.Layout.Dimensions.default,
      Faga.Layout.EdgeSizes.default, Faga.Layout.Rect.default, Faga.alGet,
      List.find?, c1Cb, to_px_keyword, to_px_length, to_px_color]
  rw [hx]
  simp only [c1Cb]
  norm_num

/-- Witness for C1 (amended) at the concrete 600 px / 1200 px input. -/
theorem c1_auto_margins_no_centering_witness :
    (Faga.alGet c1Node.specified_values ( "width".toList)
      = some (.length 600 .px)
    ∧ Faga.alGet c1Node.specified_values ( "margin-left".toList)
      = some (.keyword ( "auto".toList))
    ∧ Faga.alGet c1Node.specified_values ( "margin-right".toList)
      = some (.keyword ( "auto".toList)))
    ∧ ((Faga.Layout.layout_tree c1Node c1Cb).dimensions.content.x
        = c1Cb.content.x
      ∧ (Faga.Layout.layout_tree c1Node c1Cb).dimensions.content.width
        = 600) :=
  ⟨⟨rfl, rfl, rfl⟩, c1_auto_margins_no_centering c1Node c1Cb 600 rfl rfl rfl⟩

/-! ### Claim C2: height accumulation and vertical stacking -/

/-- Projection of dimensions over the LayoutBox constructor. -/
theorem dimensions_mk (d : Faga.Layout.Dimensions) (t : Faga.Layout.BoxType)
    (cs : List Faga.Layout.LayoutBox) :
    (Faga.Layout.LayoutBox.mk d t cs).dimensions = d := rfl

/-- Projection of children over the LayoutBox constructor. -/
theorem children_mk (d : Faga.Layout.Dimensions) (t : Faga.Layout.BoxType)
    (cs : List Faga.Layout.LayoutBox) :
    (Faga.Layout.LayoutBox.mk d t cs).children = cs := rfl


theorem layout_tree_content_y (n : Faga.Css.StyledNode)
    (cb : Faga.Layout.Dimensions) :
    (Faga.Layout.layout_tree n cb).dimensions.content.y
      = cb.content.y + (Faga.Layout.layout_tree n cb).dimensions.margin.top
        + (Faga.Layout.layout_tree n cb).dimensions.border.top
        + (Faga.Layout.layout_tree n cb).dimensions.padding.top := by
  obtain ⟨nd, sv, cs⟩ := n
  simp only [Faga.Layout.layout_tree, dimensions_mk]

theorem layout_children_snd (cs : List Faga.Css.StyledNode)
    (parent : Faga.Layout.Dimensions) (y : ℚ) :
    (Faga.Layout.layout_children cs parent y).2
      = y + (((Faga.Layout.layout_children cs parent y).1).map
          Faga.Layout.LayoutBox.stackAdvance).sum := by
  induction cs generalizing y with
  | nil => simp [Faga.Layout.layout_children]
  | cons c rest ih =>
    simp only [Faga.Layout.layout_children, List.map_cons, List.sum_cons]
    rw [ih]
    simp only [Faga.Layout.LayoutBox.stackAdvance,
      Faga.Layout.EdgeSizes.box_height]
    ring

theorem layout_children_get (cs : List Faga.Css.StyledNode)
    (parent : Faga.Layout.Dimensions) (y : ℚ) (k : Nat)
    (hk : k < (Faga.Layout.layout_children cs parent y).1.length) :
    ((Faga.Layout.layout_children cs parent y).1.get
        ⟨k, hk⟩).dimensions.content.y
      - ((Faga.Layout.layout_children cs parent y).1.get
          ⟨k, hk⟩).dimensions.margin.top
      - ((Faga.Layout.layout_children cs parent y).1.get
          ⟨k, hk⟩).dimensions.border.top
      - ((Faga.Layout.layout_children cs parent y).1.get
          ⟨k, hk⟩).dimensions.padding.top
    = y + ((((Faga.Layout.layout_children cs parent y).1).take k).map
        Faga.Layout.LayoutBox.stackAdvance).sum := by
  induction cs generalizing y k with
  | nil => simp [Faga.Layout.layout_children] at hk
  | cons c rest ih =>
    cases k with
    | zero =>
      simp only [Faga.Layout.layout_children, List.get, List.take_zero,
        List.map_nil, List.sum_nil, add_zero]
      rw [layout_tree_content_y]
      ring
    | succ k =>
      simp only [Faga.Layout.layout_children, List.get, List.take_succ_cons,
        List.map_cons, List.sum_cons]
      rw [ih]
      simp only [Faga.Layout.LayoutBox.stackAdvance,
        Faga.Layout.EdgeSizes.box_height]
      ring

/-- C2: with no explicit pixel height declaration, a node's layout content
    height is the sum over its children of margin-box height (content height
    plus margin-top plus margin-bottom); an explicit pixel height overrides
    the accumulated value; and every child's containing y (its content y
    minus its own top margin, border and padding offsets) equals the parent's
    content y plus the cumulative margin-box heights of all preceding
    siblings. -/
theorem c2_height_accumulation (n : Faga.Css.StyledNode)
    (cb : Faga.Layout.Dimensions) :
    (Faga.Layout.declaredHeight n.specified_values = none →
      (Faga.Layout.layout_tree n cb).dimensions.content.height
        = (((Faga.Layout.layout_tree n cb).children).map
            Faga.Layout.LayoutBox.stackAdvance).sum)
    ∧ (∀ hv, Faga.Layout.declaredHeight n.specified_values = some hv →
        (Faga.Layout.layout_tree n cb).dimensions.content.height = hv)
    ∧ (∀ k (hk : k < (Faga.Layout.layout_tree n cb).children.length),
        ((Faga.Layout.layout_tree n cb).children.get
            ⟨k, hk⟩).dimensions.content.y
          - ((Faga.Layout.layout_tree n cb).children.get
              ⟨k, hk⟩).dimensions.margin.top
          - ((Faga.Layout.layout_tree n cb).children.get
              ⟨k, hk⟩).dimensions.border.top
          - ((Faga.Layout.layout_tree n cb).children.get
              ⟨k, hk⟩).dimensions.padding.top
        = (Faga.Layout.layout_tree n cb).dimensions.content.y
          + ((((Faga.Layout.layout_tree n cb).children).take k).map
              Faga.Layout.LayoutBox.stackAdvance).sum) := by
  obtain ⟨nd, sv, cs⟩ := n
  refine ⟨?_, ?_, ?_⟩
  · intro hnone
    simp only [Faga.Css.StyledNode.specified_values] at hnone
    simp only [Faga.Layout.layout_tree, dimensions_mk, children_mk, hnone]
    rw [layout_children_snd]
    ring
  · intro hv hsome
    simp only [Faga.Css.StyledNode.specified_values] at hsome
    simp only [Faga.Layout.layout_tree, dimensions_mk, children_mk, hsome]
  · intro k hk
    simp only [Faga.Layout.layout_tree, dimensions_mk, children_mk] at hk ⊢
    rw [layout_children_get]

/-- A child block with an explicit pixel height, for the C2 witness. -/
def c2Child (h : ℚ) : Faga.Css.StyledNode :=
  .mk (Faga.Html.elem ( "div".toList) [] [])
    [(( "height".toList), .length h .px)] []

/-- Parent block with three children of heights 10, 20, 30 px and no
    explicit height of its own. -/
def c2Parent : Faga.Css.StyledNode :=
  .mk (Faga.Html.elem ( "div".toList) [] []) []
    [c2Child 10, c2Child 20, c2Child 30]

/-- Containing block for the C2 witness. -/
def c2Cb : Faga.Layout.Dimensions :=
  { content := { x := 0, y := 0, width := 800, height := 0 },
    padding := Faga.Layout.EdgeSizes.default,
    border := Faga.Layout.EdgeSizes.default,
    margin := Faga.Layout.EdgeSizes.default }

/-- Witness for C2: the three-children example; the parent resolves to
    content height 60 and the children stack at y = 0, 10, 30. -/
theorem c2_height_accumulation_witness :
    Faga.Layout.declaredHeight c2Parent.specified_values = none
    ∧ (Faga.Layout.layout_tree c2Parent c2Cb).dimensions.content.height
      = (((Faga.Layout.layout_tree c2Parent c2Cb).children).map
          Faga.Layout.LayoutBox.stackAdvance).sum
    ∧ (Faga.Layout.layout_tree c2Parent c2Cb).dimensions.content.height = 60
    ∧ ((Faga.Layout.layout_tree c2Parent c2Cb).children.map
        (fun b => b.dimensions.content.y)) = [0, 10, 30] :=
  ⟨rfl, (c2_height_accumulation c2Parent c2Cb).1 rfl, by
    simp [c2Parent, c2Child, c2Cb, Faga.Layout.layout_tree,
      Faga.Layout.layout_children, Faga.Layout.calculate_width,
      Faga.Layout.declaredHeight, Faga.Layout.EdgeSizes.box_height,
      Faga.Layout.Dimensions.default, Faga.Layout.EdgeSizes.default,
      Faga.Layout.Rect.default, Faga.alGet, List.find?, dimensions_mk,
      children_mk, to_px_keyword, to_px_length, to_px_color]
    norm_num, by
    simp [c2Parent, c2Child, c2Cb, Faga.Layout.layout_tree,
      Faga.Layout.layout_children, Faga.Layout.calculate_width,
      Faga.Layout.declaredHeight, Faga.Layout.EdgeSizes.box_height,
      Faga.Layout.Dimensions.default, Faga.Layout.EdgeSizes.default,
      Faga.Layout.Rect.default, Faga.alGet, List.find?, dimensions_mk,
      children_mk, to_px_keyword, to_px_length, to_px_color]
    norm_num⟩

/-! ### Claim C3: non-negativity of content widths -/

/-- The content width value assigned by calculate_width, as a function of
    the containing block's content width. -/
def resolvedContentWidth (sv : Faga.Css.PropertyMap) (w : ℚ) : ℚ :=
  match (Faga.alGet sv ( "width".toList)).getD
      (Faga.Css.Value.keyword ( "auto".toList)) with
  | .keyword s =>
    if s = ( "auto".toList) then
      w - Faga.Layout.to_px ((Faga.alGet sv ( "margin-left".toList)).getD
          (.length 0 .px))
        - Faga.Layout.to_px ((Faga.alGet sv ( "margin-right".toList)).getD
          (.length 0 .px))
    else 0
  | wv => Faga.Layout.to_px wv

theorem calculate_width_content_width (sv : Faga.Css.PropertyMap)
    (cb : Faga.Layout.Dimensions) :
    (Faga.Layout.calculate_width sv cb).content.width
      = resolvedContentWidth sv cb.content.width := by
  simp only [Faga.Layout.calculate_width, resolvedContentWidth]
  cases h : (Faga.alGet sv ( "width".toList)).getD
      (Faga.Css.Value.keyword ( "auto".toList)) with
  | keyword s =>
    dsimp only
    rcases eq_or_ne s ( "auto".toList) with hs | hs
    · simp [hs, Faga.Layout.Dimensions.default, Faga.Layout.Rect.default]
    · rw [if_neg hs, if_neg hs]
      simp [Faga.Layout.Dimensions.default, Faga.Layout.Rect.default]
  | length v u => simp [Faga.Layout.Dimensions.default, Faga.Layout.Rect.default]
  | colorValue r g b a => simp [Faga.Layout.Dimensions.default, Faga.Layout.Rect.default]

theorem layout_tree_content_width (n : Faga.Css.StyledNode)
    (cb : Faga.Layout.Dimensions) :
    (Faga.Layout.layout_tree n cb).dimensions.content.width
      = resolvedContentWidth n.specified_values cb.content.width := by
  obtain ⟨nd, sv, cs⟩ := n
  simp only [Faga.Layout.layout_tree, dimensions_mk,
    Faga.Css.StyledNode.specified_values]
  exact calculate_width_content_width sv cb

mutual

/-- The margins-fit condition of the amended C3: at every node, when the
    width resolves to auto, declared left plus right margins (in px) do not
    exceed the inherited containing content width, and a declared fixed
    width is non-negative; the containing width passed to the children is
    the one the code computes. -/
def widthsFit (n : Faga.Css.StyledNode) (w : ℚ) : Bool :=
  match n with
  | .mk _ sv cs =>
    (match (Faga.alGet sv ( "width".toList)).getD
        (Faga.Css.Value.keyword ( "auto".toList)) with
     | .keyword s =>
       if s = ( "auto".toList) then
         decide (Faga.Layout.to_px ((Faga.alGet sv
             ( "margin-left".toList)).getD (.length 0 .px))
           + Faga.Layout.to_px ((Faga.alGet sv
             ( "margin-right".toList)).getD (.length 0 .px)) ≤ w)
       else true
     | wv => decide (0 ≤ Faga.Layout.to_px wv))
    && widthsFitAll cs (resolvedContentWidth sv w)

/-- widthsFit over a list of siblings sharing one containing width. -/
def widthsFitAll (cs : List Faga.Css.StyledNode) (w : ℚ) : Bool :=
  match cs with
  | [] => true
  | c :: rest => widthsFit c w && widthsFitAll rest w

end

mutual

/-- All boxes of a layout tree, the root included. -/
def allBoxes (b : Faga.Layout.LayoutBox) : List Faga.Layout.LayoutBox :=
  match b with
  | .mk d t cs => .mk d t cs :: allBoxesList cs

/-- All boxes of a forest of layout trees. -/
def allBoxesList (cs : List Faga.Layout.LayoutBox) :
    List Faga.Layout.LayoutBox :=
  match cs with
  | [] => []
  | c :: rest => allBoxes c ++ allBoxesList rest

end

mutual

theorem widthsFit_nonneg (n : Faga.Css.StyledNode)
    (cb : Faga.Layout.Dimensions)
    (h : widthsFit n cb.content.width = true) :
    ∀ b ∈ allBoxes (Faga.Layout.layout_tree n cb),
      0 ≤ b.dimensions.content.width := by
  obtain ⟨nd, sv, cs⟩ := n
  rw [widthsFit, Bool.and_eq_true] at h
  intro b hb
  rw [Faga.Layout.layout_tree] at hb
  rw [allBoxes, List.mem_cons] at hb
  rcases hb with hb | hb
  · subst hb
    rw [dimensions_mk]
    have hw := calculate_width_content_width sv cb
    have hroot : ({ Faga.Layout.calculate_width sv cb with content :=
        { (Faga.Layout.calculate_width sv cb).content with
          x := cb.content.x + (Faga.Layout.calculate_width sv cb).margin.left
            + (Faga.Layout.calculate_width sv cb).border.left
            + (Faga.Layout.calculate_width sv cb).padding.left,
          y := cb.content.y + (Faga.Layout.calculate_width sv cb).margin.top
            + (Faga.Layout.calculate_width sv cb).border.top
            + (Faga.Layout.calculate_width sv cb).padding.top } } :
        Faga.Layout.Dimensions).content.width
        = resolvedContentWidth sv cb.content.width := hw
    refine le_trans ?_ (le_of_eq hroot.symm)
    revert h
    rw [resolvedContentWidth]
    cases hv : (Faga.alGet sv ( "width".toList)).getD
        (Faga.Css.Value.keyword ( "auto".toList)) with
    | keyword s =>
      by_cases hs : s = ( "auto".toList) <;>
        simp only [hs, if_true, if_false, decide_eq_true_eq, and_imp] <;>
        intro h1 _
      · linarith
      · simp [hs]
    | length v u =>
      simp only [decide_eq_true_eq, and_imp]
      intro h1 _
      exact h1
    | colorValue r g b a =>
      simp only [decide_eq_true_eq, and_imp]
      intro h1 _
      exact h1
  · have h2 := h.2
    have hcw : (({ Faga.Layout.calculate_width sv cb with content :=
        { (Faga.Layout.calculate_width sv cb).content with
          x := cb.content.x + (Faga.Layout.calculate_width sv cb).margin.left
            + (Faga.Layout.calculate_width sv cb).border.left
            + (Faga.Layout.calculate_width sv cb).padding.left,
          y := cb.content.y + (Faga.Layout.calculate_width sv cb).margin.top
            + (Faga.Layout.calculate_width sv cb).border.top
            + (Faga.Layout.calculate_width sv cb).padding.top } } :
        Faga.Layout.Dimensions)).content.width
        = resolvedContentWidth sv cb.content.width :=
      calculate_width_content_width sv cb
    exact widthsFitAll_nonneg cs _ _ (by rw [hcw]; exact h2) b hb

theorem widthsFitAll_nonneg (cs : List Faga.Css.StyledNode)
    (parent : Faga.Layout.Dimensions) (y : ℚ)
    (h : widthsFitAll cs parent.content.width = true) :
    ∀ b ∈ allBoxesList (Faga.Layout.layout_children cs parent y).1,
      0 ≤ b.dimensions.content.width := by
  match cs with
  | [] =>
    intro b hb
    rw [Faga.Layout.layout_children] at hb
    simp only [allBoxesList, List.not_mem_nil] at hb
  | c :: rest =>
    rw [widthsFitAll, Bool.and_eq_true] at h
    intro b hb
    rw [Faga.Layout.layout_children] at hb
    simp only [allBoxesList, List.mem_append] at hb
    rcases hb with hb | hb
    · exact widthsFit_nonneg c
        { parent with content := { parent.content with height := 0, y := y } }
        (by exact h.1) b hb
    · exact widthsFitAll_nonneg rest parent _ h.2 b hb

end

/-- C3 (amended): after width resolution every box in the layout tree has a
    non-negative content width, provided that at every node the declared
    margins fit: for auto width, margin-left plus margin-right (as pixels)
    does not exceed the node's containing content width, and a declared
    fixed width is non-negative.  (The original claim, which asserted this
    also when margins exceed the containing width, is refuted by the
    counterexample below.) -/
theorem c3_width_nonneg_when_fits (n : Faga.Css.StyledNode)
    (cb : Faga.Layout.Dimensions)
    (h : widthsFit n cb.content.width = true) :
    ∀ b ∈ allBoxes (Faga.Layout.layout_tree n cb),
      0 ≤ b.dimensions.content.width :=
  widthsFit_nonneg n cb h

/-- Concrete node for the C3 counterexample: auto width with 60 px margins
    on both sides. -/
def c3Node : Faga.Css.StyledNode :=
  .mk (Faga.Html.elem ( "div".toList) [] [])
    [(( "margin-left".toList), .length 60 .px),
     (( "margin-right".toList), .length 60 .px)] []

/-- Containing block of content width 100 px for C3. -/
def c3Cb : Faga.Layout.Dimensions :=
  { content := { x := 0, y := 0, width := 100, height := 0 },
    padding := Faga.Layout.EdgeSizes.default,
    border := Faga.Layout.EdgeSizes.default,
    margin := Faga.Layout.EdgeSizes.default }

/-- C3 counterexample: with auto width, margins 60 px + 60 px and a 100 px
    containing block, the resolved content width is -20 px, which is
    negative. -/
theorem c3_counterexample :
    (Faga.Layout.layout_tree c3Node c3Cb).dimensions.content.width < 0 := by
  simp [c3Node, c3Cb, Faga.Layout.layout_tree, Faga.Layout.calculate_width,
    dimensions_mk, Faga.alGet, List.find?, Faga.Layout.Dimensions.default,
    Faga.Layout.EdgeSizes.default, Faga.Layout.Rect.default, to_px_keyword,
    to_px_length, to_px_color]
  norm_num

/-- A well-margined tree for the C3 witness: auto width with 30 px margins
    and one fixed 20 px wide child. -/
def c3GoodNode : Faga.Css.StyledNode :=
  .mk (Faga.Html.elem ( "div".toList) [] [])
    [(( "margin-left".toList), .length 30 .px),
     (( "margin-right".toList), .length 30 .px)]
    [.mk (Faga.Html.elem ( "p".toList) [] [])
      [(( "width".toList), .length 20 .px)] []]

/-- Witness for C3 (amended) at a concrete fitting tree. -/
theorem c3_width_nonneg_when_fits_witness :
    widthsFit c3GoodNode c3Cb.content.width = true
    ∧ ∀ b ∈ allBoxes (Faga.Layout.layout_tree c3GoodNode c3Cb),
        0 ≤ b.dimensions.content.width :=
  ⟨by
    simp [c3GoodNode, c3Cb, widthsFit, widthsFitAll, resolvedContentWidth,
      Faga.alGet, List.find?, to_px_keyword, to_px_length, to_px_color]
    norm_num,
   c3_width_nonneg_when_fits c3GoodNode c3Cb (by
    simp [c3GoodNode, c3Cb, widthsFit, widthsFitAll, resolvedContentWidth,
      Faga.alGet, List.find?, to_px_keyword, to_px_length, to_px_color]
    norm_num)⟩

/-! ### The display-list builder of src/paint/src/lib.rs -/

/-- The node_type field of an Html.Node. -/
def Faga.Html.Node.node_type : Faga.Html.Node → Faga.Html.NodeType
  | .mk _ t => t

namespace Faga

namespace Paint

/-- DisplayCommand from src/paint/src/lib.rs; colors are packed u32 ARGB
    words, modelled as Nat (all packings stay below 2^32). -/
inductive DisplayCommand where
  | solidColor (color : Nat) (rect : Faga.Layout.Rect)
  | text (content : Str) (rect : Faga.Layout.Rect) (color : Nat)
deriving DecidableEq

/-- DisplayList from src/paint/src/lib.rs. -/
abbrev DisplayList := List DisplayCommand

/-- The ARGB u32 packing in get_color: (a << 24) | (r << 16) | (g << 8) | b.
    With all components below 256 the word is below 2^32, so no wrapping
    occurs. -/
def packColor (r g b a : Fin 256) : Nat :=
  (a.val <<< 24) ||| (r.val <<< 16) ||| (g.val <<< 8) ||| b.val

/-- get_color from src/paint/src/lib.rs: a color-valued property packs to
    ARGB, five named keywords resolve from a fixed table, anything else
    (including anonymous blocks) resolves to none. -/
def get_color (bt : Faga.Layout.BoxType) (name : Str) : Option Nat :=
  match bt with
  | .blockNode node | .inlineNode node =>
    (match Faga.alGet node.specified_values name with
     | some (.colorValue r g b a) => some (packColor r g b a)
     | some (.keyword k) =>
       if k = ( "black".toList) then some 0xFF000000
       else if k = ( "white".toList) then some 0xFFFFFFFF
       else if k = ( "red".toList) then some 0xFFFF0000
       else if k = ( "blue".toList) then some 0xFF0000FF
       else if k = ( "grey".toList) ∨ k = ( "gray".toList) then
         some 0xFF808080
       else none
     | _ => none)
  | .anonymousBlock => none

/-- border_box from src/paint/src/lib.rs: the content rect expanded by
    padding and border on all four sides. -/
def border_box (d : Faga.Layout.Dimensions) : Faga.Layout.Rect :=
  { x := d.content.x - d.padding.left - d.border.left,
    y := d.content.y - d.padding.top - d.border.top,
    width := d.content.width + d.padding.left + d.padding.right
      + d.border.left + d.border.right,
    height := d.content.height + d.padding.top + d.padding.bottom
      + d.border.top + d.border.bottom }

/-- render_background from src/paint/src/lib.rs. -/
def render_background (list : DisplayList) (box : Faga.Layout.LayoutBox) :
    DisplayList :=
  match get_color box.box_type ( "background".toList) with
  | some color => list ++ [.solidColor color (border_box box.dimensions)]
  | none => list

/-- render_text from src/paint/src/lib.rs: emits a Text command over the
    content rect when the box's styled node refers to a DOM text node. -/
def render_text (list : DisplayList) (box : Faga.Layout.LayoutBox) :
    DisplayList :=
  let node_opt :=
    match box.box_type with
    | .blockNode sn => some sn.node
    | .inlineNode sn => some sn.node
    | .anonymousBlock => none
  match node_opt with
  | some nd =>
    match nd.node_type with
    | .text content =>
      list ++ [.text content box.dimensions.content
        ((get_color box.box_type ( "color".toList)).getD 0xFF000000)]
    | .element _ => list
  | none => list

/-- render_borders from src/paint/src/lib.rs: computes the border box and
    emits nothing. -/
def render_borders (list : DisplayList) (box : Faga.Layout.LayoutBox) :
    DisplayList :=
  let _bb := border_box box.dimensions
  list

mutual

/-- render_layout_box from src/paint/src/lib.rs: background, borders, text,
    then the children, appending to the accumulated list. -/
def render_layout_box (list : DisplayList) (box : Faga.Layout.LayoutBox) :
    DisplayList :=
  match box with
  | .mk d t cs =>
    render_children
      (render_text
        (render_borders (render_background list (.mk d t cs)) (.mk d t cs))
        (.mk d t cs)) cs

/-- The child loop of render_layout_box. -/
def render_children (list : DisplayList) (cs : List Faga.Layout.LayoutBox) :
    DisplayList :=
  match cs with
  | [] => list
  | c :: rest => render_children (render_layout_box list c) rest

end

/-- build_display_list from src/paint/src/lib.rs. -/
def build_display_list (layout_root : Faga.Layout.LayoutBox) : DisplayList :=
  render_layout_box [] layout_root

/-- The commands a box emits for itself (background, borders, text),
    without its children. -/
def selfCommands (box : Faga.Layout.LayoutBox) : DisplayList :=
  render_text (render_borders (render_background [] box) box) box

end Paint

end Faga

/-! ### Claims C8 and C10: shape of the display list -/

theorem render_background_append (l : Faga.Paint.DisplayList)
    (b : Faga.Layout.LayoutBox) :
    Faga.Paint.render_background l b
      = l ++ Faga.Paint.render_background [] b := by
  simp only [Faga.Paint.render_background]
  cases hc : Faga.Paint.get_color b.box_type ( "background".toList) <;> simp

theorem render_text_append (l : Faga.Paint.DisplayList)
    (b : Faga.Layout.LayoutBox) :
    Faga.Paint.render_text l b = l ++ Faga.Paint.render_text [] b := by
  simp only [Faga.Paint.render_text]
  cases hb : b.box_type with
  | blockNode sn => cases hn : sn.node.node_type <;> simp [hn]
  | inlineNode sn => cases hn : sn.node.node_type <;> simp [hn]
  | anonymousBlock => simp

mutual

theorem render_layout_box_append (l : Faga.Paint.DisplayList)
    (b : Faga.Layout.LayoutBox) :
    Faga.Paint.render_layout_box l b
      = l ++ Faga.Paint.render_layout_box [] b := by
  obtain ⟨d, t, cs⟩ := b
  rw [Faga.Paint.render_layout_box, Faga.Paint.render_layout_box]
  rw [render_children_append _ cs]
  rw [render_children_append (Faga.Paint.render_text
    (Faga.Paint.render_borders (Faga.Paint.render_background []
      (.mk d t cs)) (.mk d t cs)) (.mk d t cs)) cs]
  simp only [Faga.Paint.render_borders]
  rw [render_background_append l, render_text_append, render_text_append
    (Faga.Paint.render_background [] (Faga.Layout.LayoutBox.mk d t cs))]
  simp [List.append_assoc]

theorem render_children_append (l : Faga.Paint.DisplayList)
    (cs : List Faga.Layout.LayoutBox) :
    Faga.Paint.render_children l cs
      = l ++ Faga.Paint.render_children [] cs := by
  match cs with
  | [] => simp [Faga.Paint.render_children]
  | c :: rest =>
    rw [Faga.Paint.render_children, Faga.Paint.render_children]
    rw [render_children_append (Faga.Paint.render_layout_box l c) rest,
      render_children_append (Faga.Paint.render_layout_box [] c) rest]
    rw [render_layout_box_append l c]
    simp [List.append_assoc]

end

theorem build_display_list_decomp (b : Faga.Layout.LayoutBox) :
    Faga.Paint.build_display_list b
      = Faga.Paint.selfCommands b
        ++ (b.children.map Faga.Paint.build_display_list).flatten := by
  obtain ⟨d, t, cs⟩ := b
  rw [Faga.Paint.build_display_list, Faga.Paint.render_layout_box,
    render_children_append, children_mk]
  have hflat : ∀ l : List Faga.Layout.LayoutBox,
      Faga.Paint.render_children [] l
        = (l.map Faga.Paint.build_display_list).flatten := by
    intro l
    induction l with
    | nil => simp [Faga.Paint.render_children]
    | cons c rest ih =>
      rw [Faga.Paint.render_children, render_children_append,
        render_layout_box_append, ih]
      simp [Faga.Paint.build_display_list]
  rw [hflat]
  rfl

/-- C8: the display list is a pre-order, depth-first emission: every box's
    own commands (background SolidColor over its border box, then its Text
    command) come before all commands of its descendants, and a box with a
    resolved background has its SolidColor command first in its list,
    strictly before every descendant's command. -/
theorem c8_display_list_preorder (b : Faga.Layout.LayoutBox) :
    Faga.Paint.build_display_list b
      = Faga.Paint.selfCommands b
        ++ (b.children.map Faga.Paint.build_display_list).flatten
    ∧ ∀ color,
        Faga.Paint.get_color b.box_type ( "background".toList) = some color →
        ∃ rest, Faga.Paint.build_display_list b
          = .solidColor color (Faga.Paint.border_box b.dimensions) :: rest := by
  refine ⟨build_display_list_decomp b, ?_⟩
  intro color hc
  have h1 : Faga.Paint.selfCommands b
      = Faga.Paint.DisplayCommand.solidColor color
          (Faga.Paint.border_box b.dimensions) :: Faga.Paint.render_text [] b := by
    rw [Faga.Paint.selfCommands]
    simp only [Faga.Paint.render_borders]
    rw [Faga.Paint.render_background, hc, render_text_append]
    simp
  rw [build_display_list_decomp b, h1]
  exact ⟨Faga.Paint.render_text [] b
    ++ (b.children.map Faga.Paint.build_display_list).flatten, by simp⟩

/-- Concrete box for the C8 witness: a red-background block with one
    blue-background child. -/
def c8Box : Faga.Layout.LayoutBox :=
  .mk Faga.Layout.Dimensions.default
    (.blockNode (.mk (Faga.Html.elem ( "div".toList) [] [])
      [(( "background".toList), .keyword ( "red".toList))] []))
    [.mk Faga.Layout.Dimensions.default
      (.blockNode (.mk (Faga.Html.elem ( "p".toList) [] [])
        [(( "background".toList), .keyword ( "blue".toList))] [])) []]

/-- Witness for C8: the red parent's SolidColor command heads the list. -/
theorem c8_display_list_preorder_witness :
    Faga.Paint.get_color c8Box.box_type ( "background".toList)
      = some 0xFFFF0000
    ∧ ∃ rest, Faga.Paint.build_display_list c8Box
        = .solidColor 0xFFFF0000
            (Faga.Paint.border_box c8Box.dimensions) :: rest :=
  ⟨rfl, (c8_display_list_preorder c8Box).2 0xFFFF0000 rfl⟩

/-- Whether render_text emits a Text command for this box: its styled node
    refers to a DOM text node. -/
def emitsText (box : Faga.Layout.LayoutBox) : Bool :=
  match box.box_type with
  | .blockNode sn | .inlineNode sn =>
    (match sn.node.node_type with
     | .text _ => true
     | .element _ => false)
  | .anonymousBlock => false

mutual

/-- Number of background SolidColor and Text commands contributed by a
    layout tree: one per node with a resolved background color, one per
    text node. -/
def countBgText (b : Faga.Layout.LayoutBox) : Nat :=
  match b with
  | .mk d t cs =>
    ((if (Faga.Paint.get_color t ( "background".toList)).isSome
        then 1 else 0)
      + (if emitsText (.mk d t cs) then 1 else 0))
    + countBgTextList cs

/-- countBgText summed over a forest. -/
def countBgTextList (cs : List Faga.Layout.LayoutBox) : Nat :=
  match cs with
  | [] => 0
  | c :: rest => countBgText c + countBgTextList rest

end

theorem render_background_length (l : Faga.Paint.DisplayList)
    (b : Faga.Layout.LayoutBox) :
    (Faga.Paint.render_background l b).length
      = l.length + (if (Faga.Paint.get_color b.box_type
          ( "background".toList)).isSome then 1 else 0) := by
  simp only [Faga.Paint.render_background]
  cases hc : Faga.Paint.get_color b.box_type ( "background".toList) <;> simp

theorem render_text_length (l : Faga.Paint.DisplayList)
    (b : Faga.Layout.LayoutBox) :
    (Faga.Paint.render_text l b).length
      = l.length + (if emitsText b then 1 else 0) := by
  obtain ⟨d, t, cs⟩ := b
  simp only [Faga.Paint.render_text, emitsText, Faga.Layout.LayoutBox.box_type]
  cases t with
  | blockNode sn => cases hn : sn.node.node_type <;> simp [hn]
  | inlineNode sn => cases hn : sn.node.node_type <;> simp [hn]
  | anonymousBlock => simp

mutual

theorem build_display_list_length (b : Faga.Layout.LayoutBox) :
    (Faga.Paint.build_display_list b).length = countBgText b := by
  obtain ⟨d, t, cs⟩ := b
  rw [build_display_list_decomp, List.length_append]
  have hself : (Faga.Paint.selfCommands (Faga.Layout.LayoutBox.mk d t cs)).length
      = (if (Faga.Paint.get_color t ( "background".toList)).isSome
          then 1 else 0)
        + (if emitsText (.mk d t cs) then 1 else 0) := by
    rw [Faga.Paint.selfCommands]
    simp only [Faga.Paint.render_borders]
    rw [render_text_length, render_background_length]
    simp [Faga.Layout.LayoutBox.box_type]
  rw [hself, children_mk, countBgText]
  have hlist : ((cs.map Faga.Paint.build_display_list).flatten).length
      = countBgTextList cs := build_display_list_length_list cs
  omega

theorem build_display_list_length_list (cs : List Faga.Layout.LayoutBox) :
    ((cs.map Faga.Paint.build_display_list).flatten).length
      = countBgTextList cs := by
  match cs with
  | [] => simp [countBgTextList]
  | c :: rest =>
    simp only [List.map_cons, List.flatten_cons, List.length_append,
      countBgTextList]
    rw [build_display_list_length c, build_display_list_length_list rest]

end

/-- C10: render_borders emits no command at all (it returns the list
    unchanged for every box, including boxes whose style declares border
    width and color), so the display list consists solely of the background
    SolidColor commands and the text-node Text commands: its length is
    exactly the number of resolved backgrounds plus the number of text
    nodes in the layout tree. -/
theorem c10_no_border_commands (l : Faga.Paint.DisplayList)
    (b : Faga.Layout.LayoutBox) :
    Faga.Paint.render_borders l b = l
    ∧ (Faga.Paint.build_display_list b).length = countBgText b :=
  ⟨rfl, build_display_list_length b⟩

/-! ### String helpers shared by the css_parser and renderer embeddings -/

namespace Faga

/-- The opening-brace character (written by code point). -/
def lbrace : Char := Char.ofNat 123

/-- The closing-brace character (written by code point). -/
def rbrace : Char := Char.ofNat 125

/-- Models str::trim: remove Unicode whitespace from both ends. -/
def trimStr (s : Str) : Str :=
  ((s.dropWhile isWs).reverse.dropWhile isWs).reverse

/-- ASCII lower-casing of one character. -/
def asciiLower (c : Char) : Char :=
  if 65 ≤ c.toNat ∧ c.toNat ≤ 90 then Char.ofNat (c.toNat + 32) else c

/-- Models str::to_lowercase (the inputs in this development are ASCII, on
    which Unicode lowercasing agrees with ASCII lowercasing). -/
def toLowerStr (s : Str) : Str := s.map asciiLower

/-- Models str::eq_ignore_ascii_case. -/
def eqIgnoreAsciiCase (s t : Str) : Bool :=
  toLowerStr s == toLowerStr t

/-- Models str::split on one separator character (empty pieces kept). -/
def splitOnChar (c : Char) : Str → List Str
  | [] => [[]]
  | a :: rest =>
    if a = c then [] :: splitOnChar c rest
    else
      match splitOnChar c rest with
      | [] => [[a]]
      | h :: t => (a :: h) :: t

/-- One-pass accumulator loop for splitWs: cur holds the current word in
    reverse. -/
def splitWsGo (cur : Str) : Str → List Str
  | [] => if cur = [] then [] else [cur.reverse]
  | c :: rest =>
    if isWs c then
      (if cur = [] then splitWsGo [] rest
       else cur.reverse :: splitWsGo [] rest)
    else splitWsGo (c :: cur) rest

/-- Models str::split_whitespace: maximal non-whitespace words, empty
    pieces discarded. -/
def splitWs (s : Str) : List Str := splitWsGo [] s

/-- Models str::find of a character, returning the parts before and after
    the first occurrence. -/
def splitAtChar (c : Char) : Str → Option (Str × Str)
  | [] => none
  | a :: rest =>
    if a = c then some ([], rest)
    else (splitAtChar c rest).map (fun p => (a :: p.1, p.2))

/-- The removal loop of trim_end_matches; each round removes one suffix
    occurrence and shortens the string, so length + 1 rounds always
    suffice. -/
def trimEndMatchesGo (pat : Str) : Nat → Str → Str
  | 0, s => s
  | fuel + 1, s =>
    if pat ≠ [] ∧ pat.isSuffixOf s = true then
      trimEndMatchesGo pat fuel (s.take (s.length - pat.length))
    else s

/-- Models str::trim_end_matches with a string pattern: repeatedly remove
    the pattern from the end. -/
def trimEndMatches (pat s : Str) : Str :=
  trimEndMatchesGo pat (s.length + 1) s

/-- Models str::trim_end_matches with a character pattern. -/
def trimEndMatchesChar (c : Char) (s : Str) : Str :=
  (s.reverse.dropWhile (fun x => x == c)).reverse

/-- Models str::trim_matches with a character pattern: both ends. -/
def trimMatchesChar (c : Char) (s : Str) : Str :=
  ((s.dropWhile (fun x => x == c)).reverse.dropWhile (fun x => x == c)).reverse

/-- ASCII digit test. -/
def isDigit (c : Char) : Bool := 48 ≤ c.toNat && c.toNat ≤ 57

/-- Value of a digit string in base 10. -/
def digitsToNat (ds : Str) : Nat :=
  ds.foldl (fun acc c => acc * 10 + (c.toNat - 48)) 0

/-- Decimal mantissa: digits, optionally a point and more digits; at least
    one digit overall.  Returns the value and the unconsumed rest. -/
def parseMantissa (s : Str) : Option (ℚ × Str) :=
  let ip := s.takeWhile isDigit
  let r1 := s.dropWhile isDigit
  match r1 with
  | '.' :: fs =>
    let fp := fs.takeWhile isDigit
    let r2 := fs.dropWhile isDigit
    if ip = [] ∧ fp = [] then none
    else some (((digitsToNat ip : ℚ)
      + (digitsToNat fp : ℚ) / (10 : ℚ) ^ fp.length), r2)
  | _ => if ip = [] then none else some ((digitsToNat ip : ℚ), r1)

/-- Optional exponent part following the mantissa. -/
def parseExpPart (q : ℚ) (s : Str) : Option ℚ :=
  match s with
  | [] => some q
  | e :: r =>
    if e = 'e' ∨ e = 'E' then
      let p : Int × Str :=
        match r with
        | '+' :: rr => (1, rr)
        | '-' :: rr => (-1, rr)
        | rr => (1, rr)
      let ds := p.2.takeWhile isDigit
      let r2 := p.2.dropWhile isDigit
      if ds = [] ∨ r2 ≠ [] then none
      else some (q * (10 : ℚ) ^ (p.1 * (digitsToNat ds : Int)))
    else none

/-- Models Rust str::parse::<f32> on decimal and scientific literals:
    optional sign, digits with at most one point, optional exponent;
    the special spellings inf/infinity/NaN are not modelled (no input in
    this development uses them), and the value is kept as an exact
    rational rather than rounded to binary floating point. -/
def parseF32 (s : Str) : Option ℚ :=
  let p : ℚ × Str :=
    match s with
    | '+' :: r => (1, r)
    | '-' :: r => (-1, r)
    | r => (1, r)
  match parseMantissa p.2 with
  | none => none
  | some (m, r) => (parseExpPart m r).map (fun q => p.1 * q)

end Faga

/-! ### The CSS parser of src/src/parser/css_parser.rs -/

namespace Faga

namespace CssP

/-- LengthUnit from src/src/parser/css_parser.rs (In is spelled inch). -/
inductive LengthUnit where
  | px
  | em
  | rem
  | vh
  | vw
  | percent
  | pt
  | cm
  | mm
  | inch
deriving DecidableEq

/-- CssColor from src/src/parser/css_parser.rs: u8 channels and f32 alpha. -/
structure CssColor where
  r : Fin 256
  g : Fin 256
  b : Fin 256
  a : ℚ
deriving DecidableEq

/-- CssColor::rgb. -/
def CssColor.rgb (r g b : Fin 256) : CssColor := ⟨r, g, b, 1⟩

/-- CssColor::rgba. -/
def CssColor.rgba (r g b : Fin 256) (a : ℚ) : CssColor := ⟨r, g, b, a⟩

/-- CssValue from src/src/parser/css_parser.rs. -/
inductive CssValue where
  | keyword (s : Str)
  | length (v : ℚ) (u : LengthUnit)
  | percentage (v : ℚ)
  | color (c : CssColor)
  | number (v : ℚ)
  | string (s : Str)
  | url (s : Str)
  | multiple (vs : List CssValue)

/-- CssRule from src/src/parser/css_parser.rs; the declarations HashMap is
    modelled as an insertion-ordered association list. -/
structure CssRule where
  selectors : List Str
  declarations : List (Str × CssValue)

/-- Stylesheet from src/src/parser/css_parser.rs. -/
structure Stylesheet where
  rules : List CssRule

/-- CssParseError from src/src/parser/css_parser.rs. -/
inductive CssParseError where
  | invalidSyntax (s : Str)
  | unexpectedToken (s : Str)

/-- One hexadecimal digit. -/
def hexDigit (c : Char) : Option Nat :=
  if 48 ≤ c.toNat ∧ c.toNat ≤ 57 then some (c.toNat - 48)
  else if 97 ≤ c.toNat ∧ c.toNat ≤ 102 then some (c.toNat - 87)
  else if 65 ≤ c.toNat ∧ c.toNat ≤ 70 then some (c.toNat - 55)
  else none

/-- u8::from_str_radix(.., 16) on a two-character slice. -/
def hexByte (c1 c2 : Char) : Option (Fin 256) :=
  match hexDigit c1, hexDigit c2 with
  | some a, some b => some ⟨(a * 16 + b) % 256, Nat.mod_lt _ (by norm_num)⟩
  | _, _ => none

/-- CssColor::from_hex: strip leading number signs, then read 3, 6 or 8 hex
    digits. -/
def CssColor.from_hex (hex : Str) : Option CssColor :=
  let h := hex.dropWhile (fun c => c == '#')
  match h with
  | [a, b, c] =>
    match hexByte a a, hexByte b b, hexByte c c with
    | some r, some g, some bl => some (CssColor.rgb r g bl)
    | _, _, _ => none
  | [a, b, c, d, e, f] =>
    match hexByte a b, hexByte c d, hexByte e f with
    | some r, some g, some bl => some (CssColor.rgb r g bl)
    | _, _, _ => none
  | [a, b, c, d, e, f, g2, h2] =>
    match hexByte a b, hexByte c d, hexByte e f, hexByte g2 h2 with
    | some r, some g, some bl, some al =>
      some (CssColor.rgba r g bl ((al.val : ℚ) / 255))
    | _, _, _, _ => none
  | _ => none

/-- CssColor::from_name: the named-color table, after lowercasing. -/
def CssColor.from_name (name : Str) : Option CssColor :=
  let n := toLowerStr name
  if n = ( "black".toList) then some (.rgb 0 0 0)
  else if n = ( "white".toList) then some (.rgb 255 255 255)
  else if n = ( "red".toList) then some (.rgb 255 0 0)
  else if n = ( "green".toList) then some (.rgb 0 128 0)
  else if n = ( "blue".toList) then some (.rgb 0 0 255)
  else if n = ( "yellow".toList) then some (.rgb 255 255 0)
  else if n = ( "cyan".toList) then some (.rgb 0 255 255)
  else if n = ( "magenta".toList) then some (.rgb 255 0 255)
  else if n = ( "gray".toList) ∨ n = ( "grey".toList) then
    some (.rgb 128 128 128)
  else if n = ( "silver".toList) then some (.rgb 192 192 192)
  else if n = ( "maroon".toList) then some (.rgb 128 0 0)
  else if n = ( "olive".toList) then some (.rgb 128 128 0)
  else if n = ( "lime".toList) then some (.rgb 0 255 0)
  else if n = ( "aqua".toList) then some (.rgb 0 255 255)
  else if n = ( "teal".toList) then some (.rgb 0 128 128)
  else if n = ( "navy".toList) then some (.rgb 0 0 128)
  else if n = ( "fuchsia".toList) then some (.rgb 255 0 255)
  else if n = ( "purple".toList) then some (.rgb 128 0 128)
  else if n = ( "orange".toList) then some (.rgb 255 165 0)
  else if n = ( "pink".toList) then some (.rgb 255 192 203)
  else if n = ( "brown".toList) then some (.rgb 165 42 42)
  else if n = ( "transparent".toList) then some (.rgba 0 0 0 0)
  else none

/-- The unit-suffix table of parse_length, in source order. -/
def unitTable : List (Str × LengthUnit) :=
  [(( "px".toList), .px), (( "em".toList), .em), (( "rem".toList), .rem),
   (( "vh".toList), .vh), (( "vw".toList), .vw),
   (( "%".toList), .percent), (( "pt".toList), .pt),
   (( "cm".toList), .cm), (( "mm".toList), .mm), (( "in".toList), .inch)]

/-- The loop of parse_length: first unit whose suffix matches and whose
    numeric part parses wins; a failed number parse falls through to the
    next unit. -/
def parse_length_go : List (Str × LengthUnit) → Str → Option CssValue
  | [], _ => none
  | (suf, u) :: rest, value =>
    if suf.isSuffixOf value then
      match parseF32 (value.take (value.length - suf.length)) with
      | some num =>
        if u = .percent then some (.percentage num)
        else some (.length num u)
      | none => parse_length_go rest value
    else parse_length_go rest value

/-- CssParser::parse_length. -/
def parse_length (value : Str) : Option CssValue :=
  parse_length_go unitTable value

/-- The saturating truncating cast `as u8` applied to an f32. -/
def f32ToU8 (q : ℚ) : Fin 256 :=
  if q ≤ 0 then 0
  else if 255 ≤ q then 255
  else ⟨q.floor.toNat % 256, Nat.mod_lt _ (by norm_num)⟩

/-- CssParser::parse_rgb. -/
def parse_rgb (value : Str) : Option CssColor :=
  let is_rgba := ( "rgba".toList).isPrefixOf value
  let start := if is_rgba then 5 else 4
  if value.length - 1 < start then none
  else
    let inner := trimStr ((value.drop start).take (value.length - 1 - start))
    let parts := (splitOnChar ',' inner).map trimStr
    match parts with
    | p0 :: p1 :: p2 :: restp =>
      match parseF32 (trimEndMatchesChar '%' p0),
          parseF32 (trimEndMatchesChar '%' p1),
          parseF32 (trimEndMatchesChar '%' p2) with
      | some r0, some g0, some b0 =>
        let r := if p0.getLast? = some '%' then f32ToU8 (r0 * (2.55 : ℚ))
          else f32ToU8 r0
        let g := if p1.getLast? = some '%' then f32ToU8 (g0 * (2.55 : ℚ))
          else f32ToU8 g0
        let b := if p2.getLast? = some '%' then f32ToU8 (b0 * (2.55 : ℚ))
          else f32ToU8 b0
        match restp with
        | p3 :: _ =>
          match parseF32 p3 with
          | some a => some (CssColor.rgba r g b a)
          | none => none
        | [] => some (CssColor.rgba r g b 1)
      | _, _, _ => none
    | _ => none

/-- CssParser::parse_value: hex color, named color, rgb/rgba, url, length
    with unit, bare number, else keyword.  Total: a non-empty trimmed value
    always classifies. -/
def parse_value (value : Str) : Option CssValue :=
  let v := trimStr value
  if v.isEmpty then none
  else
    match (if v.head? = some '#' then CssColor.from_hex v else none) with
    | some color => some (.color color)
    | none =>
      match CssColor.from_name v with
      | some color => some (.color color)
      | none =>
        match (if ( "rgb".toList).isPrefixOf v then parse_rgb v
            else none) with
        | some color => some (.color color)
        | none =>
          if ( "url(".toList).isPrefixOf v ∧ v.getLast? = some ')' then
            some (.url (trimMatchesChar quoteS
              (trimMatchesChar quoteD (trimStr (v.drop 4).dropLast))))
          else
            match parse_length v with
            | some l => some l
            | none =>
              match parseF32 v with
              | some num => some (.number num)
              | none => some (.keyword v)

end CssP

end Faga

namespace Faga

namespace CssP

/-- The common 1/2/3/4-value fan-out of parse_shorthand_property, shared by
    the identical margin and padding match arms of the source. -/
def expandQuad (ktop kright kbottom kleft : Str) (value : Str)
    (result : List (Str × CssValue)) : List (Str × CssValue) :=
  match splitWs value with
  | [p1] =>
    match parse_value p1 with
    | some v =>
      alInsert (alInsert (alInsert (alInsert result ktop v) kright v)
        kbottom v) kleft v
    | none => result
  | [p1, p2] =>
    let r1 :=
      match parse_value p1 with
      | some v => alInsert (alInsert result ktop v) kbottom v
      | none => result
    (match parse_value p2 with
     | some hv => alInsert (alInsert r1 kleft hv) kright hv
     | none => r1)
  | [p1, p2, p3] =>
    let r1 :=
      match parse_value p1 with
      | some t => alInsert result ktop t
      | none => result
    let r2 :=
      match parse_value p2 with
      | some hv => alInsert (alInsert r1 kleft hv) kright hv
      | none => r1
    (match parse_value p3 with
     | some b => alInsert r2 kbottom b
     | none => r2)
  | [p1, p2, p3, p4] =>
    let r1 :=
      match parse_value p1 with
      | some t => alInsert result ktop t
      | none => result
    let r2 :=
      match parse_value p2 with
      | some rv => alInsert r1 kright rv
      | none => r1
    let r3 :=
      match parse_value p3 with
      | some b => alInsert r2 kbottom b
      | none => r2
    (match parse_value p4 with
     | some l => alInsert r3 kleft l
     | none => r3)
  | _ => result

/-- CssParser::parse_shorthand_property: margin and padding expand by the
    fan-out rule; any other property is parsed and inserted directly. -/
def parse_shorthand_property (property value : Str)
    (result : List (Str × CssValue)) : List (Str × CssValue) :=
  if property = ( "margin".toList) then
    expandQuad ( "margin-top".toList) ( "margin-right".toList)
      ( "margin-bottom".toList) ( "margin-left".toList) value result
  else if property = ( "padding".toList) then
    expandQuad ( "padding-top".toList) ( "padding-right".toList)
      ( "padding-bottom".toList) ( "padding-left".toList) value result
  else
    match parse_value value with
    | some v => alInsert result property v
    | none => result

/-- The body of the declaration loop in CssParser::parse_declarations: a
    piece without a colon contributes nothing. -/
def parse_declaration_step (m : List (Str × CssValue)) (piece : Str) :
    List (Str × CssValue) :=
  let d := trimStr piece
  if d.isEmpty then m
  else
    match splitAtChar ':' d with
    | none => m
    | some (beforeC, afterC) =>
      let property := toLowerStr (trimStr beforeC)
      let v1 := trimStr afterC
      let v2 := trimStr (trimEndMatches ( "!important".toList) v1)
      parse_shorthand_property property v2 m

/-- CssParser::parse_declarations. -/
def parse_declarations (declarations : Str) : List (Str × CssValue) :=
  (splitOnChar ';' declarations).foldl parse_declaration_step []

/-- CssParser::parse_inline_style. -/
def parse_inline_style (style : Str) : List (Str × CssValue) :=
  parse_declarations style

/-- The selector part of a rule block: the text before the first opening
    brace, trimmed. -/
def selector_part (rule : Str) (brace_pos : Nat) : Str :=
  trimStr (rule.take brace_pos)

/-- CssParser::parse_rule: at-rules and selector-less blocks are dropped
    (None); otherwise the selectors are split on commas and the
    declarations parsed.  (The source slices rule[brace_pos+1..end_brace];
    the model clamps an empty slice where the source could only panic on
    inputs that split_rules never produces.) -/
def parse_rule (rule : Str) : Option CssRule :=
  match rule.findIdx? (fun x => x == lbrace) with
  | none => none
  | some brace_pos =>
    match (rule.reverse.findIdx? (fun x => x == rbrace)).map
        (fun i => rule.length - 1 - i) with
    | none => none
    | some end_brace =>
      let sel := selector_part rule brace_pos
      let declarations_part :=
        trimStr ((rule.drop (brace_pos + 1)).take
          (end_brace - (brace_pos + 1)))
      if sel.head? = some '@' then none
      else
        let selectors := ((splitOnChar ',' sel).map trimStr).filter
          (fun s => !s.isEmpty)
        if selectors.isEmpty then none
        else some ⟨selectors, parse_declarations declarations_part⟩

/-- The brace-depth loop of CssParser::split_rules. -/
def split_rules_go : Str → Str → Int → List Str → List Str
  | [], _, _, rules => rules
  | c :: rest, current, depth, rules =>
    if c = lbrace then split_rules_go rest (current ++ [c]) (depth + 1) rules
    else if c = rbrace then
      (if depth - 1 = 0 then
        (let rule := trimStr (current ++ [c])
         split_rules_go rest [] (depth - 1)
           (if rule = [] then rules else rules ++ [rule]))
      else split_rules_go rest (current ++ [c]) (depth - 1) rules)
    else split_rules_go rest (current ++ [c]) depth rules

/-- CssParser::split_rules. -/
def split_rules (css : Str) : List Str := split_rules_go css [] 0 []

mutual

/-- CssParser::remove_comments, outer loop: a slash followed by a star
    opens a comment, any other character is copied through. -/
def remove_comments : Str → Str
  | [] => []
  | '/' :: '*' :: rest2 => skip_comment rest2
  | c :: rest => c :: remove_comments rest

/-- The inner skip-until-close loop of remove_comments, resuming the outer
    loop after the star-slash that ends the comment. -/
def skip_comment : Str → Str
  | [] => []
  | '*' :: '/' :: r => remove_comments r
  | _ :: rest => skip_comment rest

end

/-- CssParser::parse: strip comments, split into brace-balanced rule
    blocks, parse each block, keep the successes; always returns Ok. -/
def parse (css : Str) : Except CssParseError Stylesheet :=
  .ok ⟨(split_rules (remove_comments css)).filterMap parse_rule⟩

end CssP

end Faga

/-! ### Lookup lemmas for the association-list HashMap model -/

theorem alGet_alInsert_self {β : Type} (m : List (Faga.Str × β))
    (k : Faga.Str) (v : β) :
    Faga.alGet (Faga.alInsert m k v) k = some v := by
  simp [Faga.alGet, Faga.alInsert, List.find?_cons]

theorem find_filter_ne {β : Type} (m : List (Faga.Str × β))
    (k k2 : Faga.Str) (hne : k2 ≠ k) :
    ((m.filter (fun p => !(p.1 == k))).find? (fun p => p.1 == k2))
      = m.find? (fun p => p.1 == k2) := by
  induction m with
  | nil => rfl
  | cons a t ih =>
    by_cases ha : (a.1 == k) = true
    · have ha2 : (a.1 == k2) = false := by
        have e : a.1 = k := by simpa using ha
        exact beq_eq_false_iff_ne.mpr (by rw [e]; exact fun e2 => hne e2.symm)
      rw [List.filter_cons]
      simp only [ha, Bool.not_true, Bool.false_eq_true, if_false]
      rw [List.find?_cons]
      simp only [ha2]
      exact ih
    · rw [List.filter_cons]
      simp only [ha]
      simp only [Bool.not_eq_true] at ha
      simp only [ha, Bool.not_false, if_true]
      rw [List.find?_cons, List.find?_cons]
      cases h2 : (a.1 == k2) with
      | true => rfl
      | false => exact ih

theorem alGet_alInsert_other {β : Type} (m : List (Faga.Str × β))
    (k k2 : Faga.Str) (v : β) (hne : k2 ≠ k) :
    Faga.alGet (Faga.alInsert m k v) k2 = Faga.alGet m k2 := by
  have hk : (k == k2) = false :=
    beq_eq_false_iff_ne.mpr (fun e => hne e.symm)
  simp only [Faga.alGet, Faga.alInsert, List.find?_cons, hk,
    Bool.false_eq_true, if_false]
  rw [find_filter_ne m k k2 hne]

/-! ### Claim C7: shorthand fan-out -/

theorem expandQuad_one (kt kr kb kl : Faga.Str) (value : Faga.Str)
    (m : List (Faga.Str × Faga.CssP.CssValue)) (s1 : Faga.Str)
    (v1 : Faga.CssP.CssValue)
    (hsplit : Faga.splitWs value = [s1])
    (h1 : Faga.CssP.parse_value s1 = some v1)
    (d1 : kt ≠ kr) (d2 : kt ≠ kb) (d3 : kt ≠ kl)
    (d4 : kr ≠ kb) (d5 : kr ≠ kl) (d6 : kb ≠ kl) :
    Faga.alGet (Faga.CssP.expandQuad kt kr kb kl value m) kt = some v1
    ∧ Faga.alGet (Faga.CssP.expandQuad kt kr kb kl value m) kr = some v1
    ∧ Faga.alGet (Faga.CssP.expandQuad kt kr kb kl value m) kb = some v1
    ∧ Faga.alGet (Faga.CssP.expandQuad kt kr kb kl value m) kl = some v1 := by
  simp only [Faga.CssP.expandQuad, hsplit, h1]
  refine ⟨?_, ?_, ?_, ?_⟩
  · rw [alGet_alInsert_other _ _ _ _ d3, alGet_alInsert_other _ _ _ _ d2,
      alGet_alInsert_other _ _ _ _ d1, alGet_alInsert_self]
  · rw [alGet_alInsert_other _ _ _ _ d5, alGet_alInsert_other _ _ _ _ d4,
      alGet_alInsert_self]
  · rw [alGet_alInsert_other _ _ _ _ d6, alGet_alInsert_self]
  · rw [alGet_alInsert_self]

theorem expandQuad_two (kt kr kb kl : Faga.Str) (value : Faga.Str)
    (m : List (Faga.Str × Faga.CssP.CssValue)) (s1 s2 : Faga.Str)
    (v1 v2 : Faga.CssP.CssValue)
    (hsplit : Faga.splitWs value = [s1, s2])
    (h1 : Faga.CssP.parse_value s1 = some v1)
    (h2 : Faga.CssP.parse_value s2 = some v2)
    (d1 : kt ≠ kr) (d2 : kt ≠ kb) (d3 : kt ≠ kl)
    (d4 : kr ≠ kb) (d5 : kr ≠ kl) (d6 : kb ≠ kl) :
    Faga.alGet (Faga.CssP.expandQuad kt kr kb kl value m) kt = some v1
    ∧ Faga.alGet (Faga.CssP.expandQuad kt kr kb kl value m) kb = some v1
    ∧ Faga.alGet (Faga.CssP.expandQuad kt kr kb kl value m) kl = some v2
    ∧ Faga.alGet (Faga.CssP.expandQuad kt kr kb kl value m) kr = some v2 := by
  simp only [Faga.CssP.expandQuad, hsplit, h1, h2]
  refine ⟨?_, ?_, ?_, ?_⟩
  · rw [alGet_alInsert_other _ _ _ _ d1, alGet_alInsert_other _ _ _ _ d3,
      alGet_alInsert_other _ _ _ _ d2, alGet_alInsert_self]
  · rw [alGet_alInsert_other _ _ _ _ (Ne.symm d4),
      alGet_alInsert_other _ _ _ _ d6, alGet_alInsert_self]
  · rw [alGet_alInsert_other _ _ _ _ (Ne.symm d5), alGet_alInsert_self]
  · rw [alGet_alInsert_self]

theorem expandQuad_three (kt kr kb kl : Faga.Str) (value : Faga.Str)
    (m : List (Faga.Str × Faga.CssP.CssValue)) (s1 s2 s3 : Faga.Str)
    (v1 v2 v3 : Faga.CssP.CssValue)
    (hsplit : Faga.splitWs value = [s1, s2, s3])
    (h1 : Faga.CssP.parse_value s1 = some v1)
    (h2 : Faga.CssP.parse_value s2 = some v2)
    (h3 : Faga.CssP.parse_value s3 = some v3)
    (d1 : kt ≠ kr) (d2 : kt ≠ kb) (d3 : kt ≠ kl)
    (d4 : kr ≠ kb) (d5 : kr ≠ kl) (d6 : kb ≠ kl) :
    Faga.alGet (Faga.CssP.expandQuad kt kr kb kl value m) kt = some v1
    ∧ Faga.alGet (Faga.CssP.expandQuad kt kr kb kl value m) kl = some v2
    ∧ Faga.alGet (Faga.CssP.expandQuad kt kr kb kl value m) kr = some v2
    ∧ Faga.alGet (Faga.CssP.expandQuad kt kr kb kl value m) kb = some v3 := by
  simp only [Faga.CssP.expandQuad, hsplit, h1, h2, h3]
  refine ⟨?_, ?_, ?_, ?_⟩
  · rw [alGet_alInsert_other _ _ _ _ d2, alGet_alInsert_other _ _ _ _ d1,
      alGet_alInsert_other _ _ _ _ d3, alGet_alInsert_self]
  · rw [alGet_alInsert_other _ _ _ _ (Ne.symm d6),
      alGet_alInsert_other _ _ _ _ (Ne.symm d5), alGet_alInsert_self]
  · rw [alGet_alInsert_other _ _ _ _ d4, alGet_alInsert_self]
  · rw [alGet_alInsert_self]

theorem expandQuad_four (kt kr kb kl : Faga.Str) (value : Faga.Str)
    (m : List (Faga.Str × Faga.CssP.CssValue)) (s1 s2 s3 s4 : Faga.Str)
    (v1 v2 v3 v4 : Faga.CssP.CssValue)
    (hsplit : Faga.splitWs value = [s1, s2, s3, s4])
    (h1 : Faga.CssP.parse_value s1 = some v1)
    (h2 : Faga.CssP.parse_value s2 = some v2)
    (h3 : Faga.CssP.parse_value s3 = some v3)
    (h4 : Faga.CssP.parse_value s4 = some v4)
    (d1 : kt ≠ kr) (d2 : kt ≠ kb) (d3 : kt ≠ kl)
    (d4 : kr ≠ kb) (d5 : kr ≠ kl) (d6 : kb ≠ kl) :
    Faga.alGet (Faga.CssP.expandQuad kt kr kb kl value m) kt = some v1
    ∧ Faga.alGet (Faga.CssP.expandQuad kt kr kb kl value m) kr = some v2
    ∧ Faga.alGet (Faga.CssP.expandQuad kt kr kb kl value m) kb = some v3
    ∧ Faga.alGet (Faga.CssP.expandQuad kt kr kb kl value m) kl = some v4 := by
  simp only [Faga.CssP.expandQuad, hsplit, h1, h2, h3, h4]
  refine ⟨?_, ?_, ?_, ?_⟩
  · rw [alGet_alInsert_other _ _ _ _ d3, alGet_alInsert_other _ _ _ _ d2,
      alGet_alInsert_other _ _ _ _ d1, alGet_alInsert_self]
  · rw [alGet_alInsert_other _ _ _ _ d5, alGet_alInsert_other _ _ _ _ d4,
      alGet_alInsert_self]
  · rw [alGet_alInsert_other _ _ _ _ d6, alGet_alInsert_self]
  · rw [alGet_alInsert_self]

/-- C7: a margin or padding shorthand declaration with 1, 2, 3 or 4
    parseable values fans out to the four longhand side properties:
    1 value sets all four sides, 2 sets top and bottom then left and right,
    3 sets top, then left and right, then bottom, and 4 sets top, right,
    bottom, left in that order. -/
theorem c7_shorthand_fanout (prop kt kr kb kl : Faga.Str)
    (m : List (Faga.Str × Faga.CssP.CssValue))
    (val1 val2 val3 val4 w x y z : Faga.Str)
    (vw vx vy vz : Faga.CssP.CssValue)
    (hkeys :
      (prop = ( "margin".toList) ∧ kt = ( "margin-top".toList)
        ∧ kr = ( "margin-right".toList) ∧ kb = ( "margin-bottom".toList)
        ∧ kl = ( "margin-left".toList))
      ∨ (prop = ( "padding".toList) ∧ kt = ( "padding-top".toList)
        ∧ kr = ( "padding-right".toList) ∧ kb = ( "padding-bottom".toList)
        ∧ kl = ( "padding-left".toList))) :
    (Faga.splitWs val1 = [w] → Faga.CssP.parse_value w = some vw →
      (Faga.alGet (Faga.CssP.parse_shorthand_property prop val1 m) kt
          = some vw
        ∧ Faga.alGet (Faga.CssP.parse_shorthand_property prop val1 m) kr
          = some vw
        ∧ Faga.alGet (Faga.CssP.parse_shorthand_property prop val1 m) kb
          = some vw
        ∧ Faga.alGet (Faga.CssP.parse_shorthand_property prop val1 m) kl
          = some vw))
    ∧ (Faga.splitWs val2 = [w, x] → Faga.CssP.parse_value w = some vw →
        Faga.CssP.parse_value x = some vx →
      (Faga.alGet (Faga.CssP.parse_shorthand_property prop val2 m) kt
          = some vw
        ∧ Faga.alGet (Faga.CssP.parse_shorthand_property prop val2 m) kb
          = some vw
        ∧ Faga.alGet (Faga.CssP.parse_shorthand_property prop val2 m) kl
          = some vx
        ∧ Faga.alGet (Faga.CssP.parse_shorthand_property prop val2 m) kr
          = some vx))
    ∧ (Faga.splitWs val3 = [w, x, y] → Faga.CssP.parse_value w = some vw →
        Faga.CssP.parse_value x = some vx →
        Faga.CssP.parse_value y = some vy →
      (Faga.alGet (Faga.CssP.parse_shorthand_property prop val3 m) kt
          = some vw
        ∧ Faga.alGet (Faga.CssP.parse_shorthand_property prop val3 m) kl
          = some vx
        ∧ Faga.alGet (Faga.CssP.parse_shorthand_property prop val3 m) kr
          = some vx
        ∧ Faga.alGet (Faga.CssP.parse_shorthand_property prop val3 m) kb
          = some vy))
    ∧ (Faga.splitWs val4 = [w, x, y, z] → Faga.CssP.parse_value w = some vw →
        Faga.CssP.parse_value x = some vx →
        Faga.CssP.parse_value y = some vy →
        Faga.CssP.parse_value z = some vz →
      (Faga.alGet (Faga.CssP.parse_shorthand_property prop val4 m) kt
          = some vw
        ∧ Faga.alGet (Faga.CssP.parse_shorthand_property prop val4 m) kr
          = some vx
        ∧ Faga.alGet (Faga.CssP.parse_shorthand_property prop val4 m) kb
          = some vy
        ∧ Faga.alGet (Faga.CssP.parse_shorthand_property prop val4 m) kl
          = some vz)) := by
  obtain ⟨hp, rfl, rfl, rfl, rfl⟩ | ⟨hp, rfl, rfl, rfl, rfl⟩ := hkeys <;>
    subst hp
  · have hexp : ∀ val, Faga.CssP.parse_shorthand_property
        ( "margin".toList) val m
        = Faga.CssP.expandQuad ( "margin-top".toList)
          ( "margin-right".toList) ( "margin-bottom".toList)
          ( "margin-left".toList) val m := by
      intro val
      rw [Faga.CssP.parse_shorthand_property, if_pos rfl]
    refine ⟨?_, ?_, ?_, ?_⟩
    · intro hs h1
      simp only [hexp]
      exact expandQuad_one _ _ _ _ _ _ _ _ hs h1 (by decide) (by decide)
        (by decide) (by decide) (by decide) (by decide)
    · intro hs h1 h2
      simp only [hexp]
      exact expandQuad_two _ _ _ _ _ _ _ _ _ _ hs h1 h2 (by decide)
        (by decide) (by decide) (by decide) (by decide) (by decide)
    · intro hs h1 h2 h3
      simp only [hexp]
      exact expandQuad_three _ _ _ _ _ _ _ _ _ _ _ _ hs h1 h2 h3 (by decide)
        (by decide) (by decide) (by decide) (by decide) (by decide)
    · intro hs h1 h2 h3 h4
      simp only [hexp]
      exact expandQuad_four _ _ _ _ _ _ _ _ _ _ _ _ _ _ hs h1 h2 h3 h4
        (by decide) (by decide) (by decide) (by decide) (by decide)
        (by decide)
  · have hexp : ∀ val, Faga.CssP.parse_shorthand_property
        ( "padding".toList) val m
        = Faga.CssP.expandQuad ( "padding-top".toList)
          ( "padding-right".toList) ( "padding-bottom".toList)
          ( "padding-left".toList) val m := by
      intro val
      rw [Faga.CssP.parse_shorthand_property, if_neg (by decide),
        if_pos rfl]
    refine ⟨?_, ?_, ?_, ?_⟩
    · intro hs h1
      simp only [hexp]
      exact expandQuad_one _ _ _ _ _ _ _ _ hs h1 (by decide) (by decide)
        (by decide) (by decide) (by decide) (by decide)
    · intro hs h1 h2
      simp only [hexp]
      exact expandQuad_two _ _ _ _ _ _ _ _ _ _ hs h1 h2 (by decide)
        (by decide) (by decide) (by decide) (by decide) (by decide)
    · intro hs h1 h2 h3
      simp only [hexp]
      exact expandQuad_three _ _ _ _ _ _ _ _ _ _ _ _ hs h1 h2 h3 (by decide)
        (by decide) (by decide) (by decide) (by decide) (by decide)
    · intro hs h1 h2 h3 h4
      simp only [hexp]
      exact expandQuad_four _ _ _ _ _ _ _ _ _ _ _ _ _ _ hs h1 h2 h3 h4
        (by decide) (by decide) (by decide) (by decide) (by decide)
        (by decide)

/-- Witness for C7: margin 1px 2px 3px 4px gives top/right/bottom/left =
    1/2/3/4 px, and margin 5px gives 5 px on all four sides. -/
theorem c7_shorthand_fanout_witness :
    Faga.splitWs ( "1px 2px 3px 4px".toList)
      = [( "1px".toList), ( "2px".toList), ( "3px".toList), ( "4px".toList)]
    ∧ Faga.splitWs ( "5px".toList) = [( "5px".toList)]
    ∧ Faga.CssP.parse_value ( "1px".toList) = some (.length 1 .px)
    ∧ Faga.CssP.parse_value ( "5px".toList) = some (.length 5 .px)
    ∧ (Faga.alGet (Faga.CssP.parse_shorthand_property ( "margin".toList)
          ( "1px 2px 3px 4px".toList) []) ( "margin-top".toList)
        = some (.length 1 .px)
      ∧ Faga.alGet (Faga.CssP.parse_shorthand_property ( "margin".toList)
          ( "1px 2px 3px 4px".toList) []) ( "margin-right".toList)
        = some (.length 2 .px)
      ∧ Faga.alGet (Faga.CssP.parse_shorthand_property ( "margin".toList)
          ( "1px 2px 3px 4px".toList) []) ( "margin-bottom".toList)
        = some (.length 3 .px)
      ∧ Faga.alGet (Faga.CssP.parse_shorthand_property ( "margin".toList)
          ( "1px 2px 3px 4px".toList) []) ( "margin-left".toList)
        = some (.length 4 .px))
    ∧ (Faga.alGet (Faga.CssP.parse_shorthand_property ( "margin".toList)
          ( "5px".toList) []) ( "margin-top".toList)
        = some (.length 5 .px)
      ∧ Faga.alGet (Faga.CssP.parse_shorthand_property ( "margin".toList)
          ( "5px".toList) []) ( "margin-right".toList)
        = some (.length 5 .px)
      ∧ Faga.alGet (Faga.CssP.parse_shorthand_property ( "margin".toList)
          ( "5px".toList) []) ( "margin-bottom".toList)
        = some (.length 5 .px)
      ∧ Faga.alGet (Faga.CssP.parse_shorthand_property ( "margin".toList)
          ( "5px".toList) []) ( "margin-left".toList)
        = some (.length 5 .px)) :=
  ⟨rfl, rfl, by with_unfolding_all rfl, by with_unfolding_all rfl,
    (c7_shorthand_fanout ( "margin".toList) ( "margin-top".toList)
      ( "margin-right".toList) ( "margin-bottom".toList)
      ( "margin-left".toList) [] ( "1px".toList) ( "1px".toList)
      ( "1px".toList) ( "1px 2px 3px 4px".toList) ( "1px".toList)
      ( "2px".toList) ( "3px".toList) ( "4px".toList)
      (.length 1 .px) (.length 2 .px) (.length 3 .px) (.length 4 .px)
      (Or.inl ⟨rfl, rfl, rfl, rfl, rfl⟩)).2.2.2 rfl (by with_unfolding_all rfl)
      (by with_unfolding_all rfl) (by with_unfolding_all rfl)
      (by with_unfolding_all rfl),
    (c7_shorthand_fanout ( "margin".toList) ( "margin-top".toList)
      ( "margin-right".toList) ( "margin-bottom".toList)
      ( "margin-left".toList) [] ( "5px".toList) ( "5px".toList)
      ( "5px".toList) ( "5px".toList) ( "5px".toList)
      ( "5px".toList) ( "5px".toList) ( "5px".toList)
      (.length 5 .px) (.length 5 .px) (.length 5 .px) (.length 5 .px)
      (Or.inl ⟨rfl, rfl, rfl, rfl, rfl⟩)).1 rfl (by with_unfolding_all rfl)⟩

/-! ### Claim C5: the CSS parser is fail-soft -/

mutual

theorem remove_comments_subset (s : Faga.Str) (c : Char)
    (h : c ∈ Faga.CssP.remove_comments s) : c ∈ s := by
  match s with
  | [] =>
    rw [Faga.CssP.remove_comments.eq_1] at h
    exact absurd h (List.not_mem_nil c)
  | [a] =>
    rw [Faga.CssP.remove_comments.eq_3 a []
      (fun r2 _ hr => List.noConfusion hr)] at h
    rcases List.mem_cons.mp h with rfl | h2
    · exact List.mem_cons_self c []
    · rw [Faga.CssP.remove_comments.eq_1] at h2
      exact absurd h2 (List.not_mem_nil c)
  | a :: b :: s2 =>
    by_cases hab : a = '/' ∧ b = '*'
    · obtain ⟨rfl, rfl⟩ := hab
      rw [Faga.CssP.remove_comments.eq_2] at h
      exact List.mem_cons_of_mem _ (List.mem_cons_of_mem _
        (skip_comment_subset s2 c h))
    · have hg : ∀ (rest2 : List Char), a = '/' → b :: s2 = '*' :: rest2 →
          False := by
        intro r2 ha hb
        exact hab ⟨ha, (List.cons_eq_cons.mp hb).1⟩
      rw [Faga.CssP.remove_comments.eq_3 a (b :: s2) hg] at h
      rcases List.mem_cons.mp h with rfl | h2
      · exact List.mem_cons_self c _
      · exact List.mem_cons_of_mem _ (remove_comments_subset (b :: s2) c h2)

theorem skip_comment_subset (s : Faga.Str) (c : Char)
    (h : c ∈ Faga.CssP.skip_comment s) : c ∈ s := by
  match s with
  | [] =>
    rw [Faga.CssP.skip_comment.eq_1] at h
    exact absurd h (List.not_mem_nil c)
  | [a] =>
    rw [Faga.CssP.skip_comment.eq_3 a []
      (fun r2 _ hr => List.noConfusion hr)] at h
    rw [Faga.CssP.skip_comment.eq_1] at h
    exact absurd h (List.not_mem_nil c)
  | a :: b :: s2 =>
    by_cases hab : a = '*' ∧ b = '/'
    · obtain ⟨rfl, rfl⟩ := hab
      rw [Faga.CssP.skip_comment.eq_2] at h
      exact List.mem_cons_of_mem _ (List.mem_cons_of_mem _
        (remove_comments_subset s2 c h))
    · have hg : ∀ (rest2 : List Char), a = '*' → b :: s2 = '/' :: rest2 →
          False := by
        intro r2 ha hb
        exact hab ⟨ha, (List.cons_eq_cons.mp hb).1⟩
      rw [Faga.CssP.skip_comment.eq_3 a (b :: s2) hg] at h
      exact List.mem_cons_of_mem _ (skip_comment_subset (b :: s2) c h)

end

theorem split_rules_go_no_rbrace (s : Faga.Str) (current : Faga.Str)
    (depth : Int) (rules : List Faga.Str) (h : Faga.rbrace ∉ s) :
    Faga.CssP.split_rules_go s current depth rules = rules := by
  induction s generalizing current depth with
  | nil => rfl
  | cons c rest ih =>
    have hc : c ≠ Faga.rbrace := fun e => h (e ▸ List.mem_cons_self c rest)
    have hrest : Faga.rbrace ∉ rest := fun e => h (List.mem_cons_of_mem c e)
    rw [Faga.CssP.split_rules_go]
    by_cases hl : c = Faga.lbrace
    · rw [if_pos hl]
      exact ih _ _ hrest
    · rw [if_neg hl, if_neg hc]
      exact ih _ _ hrest

/-- C5: CssParser::parse never returns an error; at-rule blocks and
    colon-less declarations are silently dropped while the rest of the
    stylesheet is still parsed, and a stylesheet without a single closing
    brace (after comment stripping the rule-splitting loop never completes
    a block) yields Ok with an empty rule list. -/
theorem c5_css_parse_fail_soft (anyCss bad piece css2 : Faga.Str)
    (m : List (Faga.Str × Faga.CssP.CssValue)) (brace_pos : Nat)
    (hfind : bad.findIdx? (fun x => x == Faga.lbrace) = some brace_pos)
    (hat : (Faga.CssP.selector_part bad brace_pos).head? = some '@')
    (hnc : Faga.splitAtChar ':' (Faga.trimStr piece) = none)
    (hnb : Faga.rbrace ∉ css2) :
    (Faga.CssP.parse anyCss).isOk = true
    ∧ Faga.CssP.parse_rule bad = none
    ∧ Faga.CssP.parse_declaration_step m piece = m
    ∧ Faga.CssP.parse css2 = .ok ⟨[]⟩ := by
  refine ⟨rfl, ?_, ?_, ?_⟩
  · rw [Faga.CssP.parse_rule, hfind]
    cases hr : (bad.reverse.findIdx? (fun x => x == Faga.rbrace)).map
        (fun i => bad.length - 1 - i) with
    | none => rfl
    | some e =>
      simp only [hat]
      simp
  · rw [Faga.CssP.parse_declaration_step]
    by_cases he : (Faga.trimStr piece).isEmpty = true
    · rw [if_pos he]
    · rw [if_neg he, hnc]
  · have h2 : Faga.rbrace ∉ Faga.CssP.remove_comments css2 :=
      fun hm => hnb (remove_comments_subset css2 Faga.rbrace hm)
    rw [Faga.CssP.parse, Faga.CssP.split_rules,
      split_rules_go_no_rbrace _ _ _ _ h2]
    rfl

/-- Witness for C5 at concrete inputs: an at-rule block, a colon-less
    declaration, and a brace-less garbage stylesheet. -/
theorem c5_css_parse_fail_soft_witness :
    ( "@x\x7by\x7d".toList : Faga.Str).findIdx?
        (fun x => x == Faga.lbrace) = some 2
    ∧ (Faga.CssP.selector_part ( "@x\x7by\x7d".toList) 2).head? = some '@'
    ∧ Faga.splitAtChar ':' (Faga.trimStr ( "nonsense".toList)) = none
    ∧ Faga.rbrace ∉ ( "just garbage".toList : Faga.Str)
    ∧ ((Faga.CssP.parse ( "p\x7bcolor:red\x7d".toList)).isOk = true
      ∧ Faga.CssP.parse_rule ( "@x\x7by\x7d".toList) = none
      ∧ Faga.CssP.parse_declaration_step [] ( "nonsense".toList) = []
      ∧ Faga.CssP.parse ( "just garbage".toList) = .ok ⟨[]⟩) :=
  ⟨rfl, rfl, rfl, by decide,
    c5_css_parse_fail_soft ( "p\x7bcolor:red\x7d".toList)
      ( "@x\x7by\x7d".toList) ( "nonsense".toList)
      ( "just garbage".toList) [] 2 rfl rfl rfl (by decide)⟩

/-! ### The style resolver of src/src/parser/renderer.rs -/

namespace Faga

namespace Renderer

/-- FontWeight from renderer.rs. -/
inductive FontWeight where
  | normal
  | bold
deriving DecidableEq

/-- FontStyle from renderer.rs. -/
inductive FontStyle where
  | normal
  | italic
deriving DecidableEq

/-- TextDecoration from renderer.rs. -/
inductive TextDecoration where
  | none
  | underline
  | lineThrough
deriving DecidableEq

/-- TextAlign from renderer.rs. -/
inductive TextAlign where
  | left
  | center
  | right
  | justify
deriving DecidableEq

/-- RenderColor from renderer.rs: u8 channels, f32 alpha. -/
structure RenderColor where
  r : Fin 256
  g : Fin 256
  b : Fin 256
  a : ℚ
deriving DecidableEq

/-- RenderColor::rgb. -/
def RenderColor.rgb (r g b : Fin 256) : RenderColor := ⟨r, g, b, 1⟩

/-- RenderColor::rgba. -/
def RenderColor.rgba (r g b : Fin 256) (a : ℚ) : RenderColor := ⟨r, g, b, a⟩

/-- RenderColor::transparent. -/
def RenderColor.transparent : RenderColor := RenderColor.rgba 0 0 0 0

/-- ComputedStyles from renderer.rs. -/
structure ComputedStyles where
  display : Str
  font_size : ℚ
  font_weight : FontWeight
  font_style : FontStyle
  text_decoration : TextDecoration
  text_align : TextAlign
  line_height : ℚ
  color : RenderColor
  margin_top : ℚ
  margin_bottom : ℚ
  margin_left : ℚ
  margin_right : ℚ
  margin_left_auto : Bool
  margin_right_auto : Bool
  padding_top : ℚ
  padding_bottom : ℚ
  padding_left : ℚ
  padding_right : ℚ
  background_color : RenderColor
  border_width : ℚ
  border_color : RenderColor
  border_radius : ℚ
  list_style_type : Str
  width : Option ℚ
  width_percent : Option ℚ
deriving DecidableEq

/-- The Default instance of ComputedStyles from renderer.rs. -/
def ComputedStyles.default : ComputedStyles where
  display := ( "block".toList)
  font_size := 16
  font_weight := .normal
  font_style := .normal
  text_decoration := .none
  text_align := .left
  line_height := 1.5
  color := RenderColor.rgb 26 26 26
  margin_top := 0
  margin_bottom := 0
  margin_left := 0
  margin_right := 0
  margin_left_auto := false
  margin_right_auto := false
  padding_top := 0
  padding_bottom := 0
  padding_left := 0
  padding_right := 0
  background_color := RenderColor.transparent
  border_width := 0
  border_color := RenderColor.transparent
  border_radius := 0
  list_style_type := ( "none".toList)
  width := none
  width_percent := none

mutual

/-- Node from src/src/parser/dom.rs. -/
inductive DomNode where
  | element (e : Element)
  | text (s : Str)
  | comment (s : Str)

/-- Element from src/src/parser/dom.rs. -/
inductive Element where
  | mk (tag_name : Str) (attributes : List (Str × Str))
      (children : List DomNode) (styles : List (Str × Str))

end

/-- The tag_name field of an Element. -/
def Element.tag_name : Element → Str
  | .mk t _ _ _ => t

/-- The attributes field of an Element. -/
def Element.attributes : Element → List (Str × Str)
  | .mk _ a _ _ => a

/-- The children field of an Element. -/
def Element.children : Element → List DomNode
  | .mk _ _ c _ => c

/-- HtmlRenderer from renderer.rs: the stylesheets and the viewport. -/
structure HtmlRenderer where
  default_stylesheet : Faga.CssP.Stylesheet
  page_stylesheets : List Faga.CssP.Stylesheet
  base_font_size : ℚ
  viewport_width : ℚ
  viewport_height : ℚ

/-- HtmlRenderer::selector_matches from renderer.rs. -/
def selector_matches (selector tag : Str) (id : Option Str)
    (classes : List Str) : Bool :=
  let s := Faga.trimStr selector
  if s = ['*'] then true
  else if s.head? = some '#' then decide (id = some (s.drop 1))
  else if s.head? = some '.' then classes.contains (s.drop 1)
  else Faga.eqIgnoreAsciiCase s tag

/-- HtmlRenderer::apply_tag_defaults from renderer.rs (base_font_size is
    taken from the renderer). -/
def apply_tag_defaults (R : HtmlRenderer) (tag : Str)
    (st : ComputedStyles) : ComputedStyles :=
  let t := Faga.toLowerStr tag
  let bfs := R.base_font_size
  if t = ( "div".toList) ∨ t = ( "article".toList) ∨ t = ( "aside".toList)
      ∨ t = ( "footer".toList) ∨ t = ( "header".toList)
      ∨ t = ( "main".toList) ∨ t = ( "nav".toList)
      ∨ t = ( "section".toList) then
    { st with display := ( "block".toList) }
  else if t = ( "h1".toList) then
    { st with
      display := ( "block".toList)
      font_size := bfs * 2
      font_weight := .bold
      margin_top := bfs * 2 * 0.67
      margin_bottom := bfs * 2 * 0.67 }
  else if t = ( "h2".toList) then
    { st with
      display := ( "block".toList)
      font_size := bfs * 1.5
      font_weight := .bold
      margin_top := bfs * 1.5 * 0.83
      margin_bottom := bfs * 1.5 * 0.83 }
  else if t = ( "h3".toList) then
    { st with
      display := ( "block".toList)
      font_size := bfs * 1.17
      font_weight := .bold
      margin_top := bfs * 1.17
      margin_bottom := bfs * 1.17 }
  else if t = ( "h4".toList) then
    { st with
      display := ( "block".toList)
      font_size := bfs
      font_weight := .bold
      margin_top := bfs * 1.33
      margin_bottom := bfs * 1.33 }
  else if t = ( "h5".toList) then
    { st with
      display := ( "block".toList)
      font_size := bfs * 0.83
      font_weight := .bold
      margin_top := bfs * 0.83 * 1.67
      margin_bottom := bfs * 0.83 * 1.67 }
  else if t = ( "h6".toList) then
    { st with
      display := ( "block".toList)
      font_size := bfs * 0.67
      font_weight := .bold
      margin_top := bfs * 0.67 * 2.33
      margin_bottom := bfs * 0.67 * 2.33 }
  else if t = ( "p".toList) then
    { st with
      display := ( "block".toList)
      margin_top := bfs
      margin_bottom := bfs }
  else if t = ( "ul".toList) ∨ t = ( "ol".toList) then
    { st with
      display := ( "block".toList)
      margin_top := bfs
      margin_bottom := bfs
      padding_left := 40 }
  else if t = ( "li".toList) then
    { st with
      display := ( "block".toList)
      list_style_type := ( "disc".toList) }
  else if t = ( "strong".toList) ∨ t = ( "b".toList) then
    { st with font_weight := .bold }
  else if t = ( "em".toList) ∨ t = ( "i".toList) then
    { st with font_style := .italic }
  else if t = ( "u".toList) then
    { st with text_decoration := .underline }
  else if t = ( "a".toList) then
    { st with
      color := RenderColor.rgb 26 13 171
      text_decoration := .underline }
  else if t = ( "code".toList) then
    { st with
      background_color := RenderColor.rgb 245 245 245
      font_size := bfs * 0.9 }
  else if t = ( "pre".toList) then
    { st with
      display := ( "block".toList)
      background_color := RenderColor.rgb 245 245 245
      font_size := bfs * 0.9
      padding_top := 10
      padding_bottom := 10
      padding_left := 10
      padding_right := 10
      margin_top := bfs
      margin_bottom := bfs }
  else if t = ( "blockquote".toList) then
    { st with
      display := ( "block".toList)
      margin_top := bfs
      margin_bottom := bfs
      margin_left := 40
      margin_right := 40 }
  else if t = ( "hr".toList) then
    { st with
      display := ( "block".toList)
      margin_top := 8
      margin_bottom := 8 }
  else if t = ( "script".toList) ∨ t = ( "style".toList)
      ∨ t = ( "head".toList) ∨ t = ( "title".toList)
      ∨ t = ( "meta".toList) ∨ t = ( "link".toList)
      ∨ t = ( "noscript".toList) ∨ t = ( "template".toList) then
    { st with display := ( "none".toList) }
  else if t = ( "body".toList) then
    { st with
      display := ( "block".toList)
      margin_top := 8
      margin_bottom := 8
      margin_left := 8
      margin_right := 8 }
  else if t = ( "html".toList) then
    { st with display := ( "block".toList) }
  else st

end Renderer

end Faga

namespace Faga

namespace Renderer

/-- The convert_length closure of apply_declarations_with_parent. -/
def convert_length (R : HtmlRenderer) (size : ℚ)
    (u : Faga.CssP.LengthUnit) (current_font_size : ℚ) : ℚ :=
  match u with
  | .px => size
  | .em => current_font_size * size
  | .rem => R.base_font_size * size
  | .pt => size * 1.333
  | .percent => current_font_size * size / 100
  | .vh => R.viewport_height * size / 100
  | .vw => R.viewport_width * size / 100
  | _ => size

/-- One iteration of the declaration loop of
    apply_declarations_with_parent: the big per-property match. -/
def apply_one (R : HtmlRenderer) (property : Str)
    (value : Faga.CssP.CssValue) (st : ComputedStyles)
    (parent_font_size : ℚ) : ComputedStyles :=
  if property = ( "display".toList) then
    match value with
    | .keyword v => { st with display := v }
    | _ => st
  else if property = ( "font-size".toList) then
    match value with
    | .length size u =>
      { st with font_size := convert_length R size u parent_font_size }
    | .keyword kw =>
      { st with font_size :=
        if kw = ( "xx-small".toList) then 9
        else if kw = ( "x-small".toList) then 10
        else if kw = ( "small".toList) then 13
        else if kw = ( "medium".toList) then 16
        else if kw = ( "large".toList) then 18
        else if kw = ( "x-large".toList) then 24
        else if kw = ( "xx-large".toList) then 32
        else if kw = ( "larger".toList) then parent_font_size * 1.2
        else if kw = ( "smaller".toList) then parent_font_size / 1.2
        else st.font_size }
    | .number n => { st with font_size := n }
    | _ => st
  else if property = ( "font-weight".toList) then
    match value with
    | .keyword v =>
      { st with font_weight :=
        if v = ( "bold".toList) ∨ v = ( "700".toList)
            ∨ v = ( "800".toList) ∨ v = ( "900".toList) then .bold
        else .normal }
    | .number n =>
      { st with font_weight := if 700 ≤ n then .bold else .normal }
    | _ => st
  else if property = ( "font-style".toList) then
    match value with
    | .keyword v =>
      { st with font_style :=
        if v = ( "italic".toList) ∨ v = ( "oblique".toList) then .italic
        else .normal }
    | _ => st
  else if property = ( "font-family".toList) then st
  else if property = ( "color".toList) then
    match value with
    | .color c => { st with color := RenderColor.rgba c.r c.g c.b c.a }
    | _ => st
  else if property = ( "background-color".toList)
      ∨ property = ( "background".toList) then
    match value with
    | .color c =>
      { st with background_color := RenderColor.rgba c.r c.g c.b c.a }
    | _ => st
  else if property = ( "opacity".toList) then
    match value with
    | .number n =>
      { st with
        color := { st.color with a := st.color.a * n }
        background_color :=
          { st.background_color with a := st.background_color.a * n } }
    | _ => st
  else if property = ( "margin".toList) then
    match value with
    | .length m u =>
      let margin := convert_length R m u st.font_size
      { st with
        margin_top := margin
        margin_bottom := margin
        margin_left := margin
        margin_right := margin
        margin_left_auto := false
        margin_right_auto := false }
    | .keyword kw =>
      if kw = ( "auto".toList) then
        { st with margin_left_auto := true, margin_right_auto := true }
      else st
    | _ => st
  else if property = ( "margin-top".toList) then
    match value with
    | .length m u =>
      { st with margin_top := convert_length R m u st.font_size }
    | _ => st
  else if property = ( "margin-bottom".toList) then
    match value with
    | .length m u =>
      { st with margin_bottom := convert_length R m u st.font_size }
    | _ => st
  else if property = ( "margin-left".toList) then
    match value with
    | .length m u =>
      { st with
        margin_left := convert_length R m u st.font_size
        margin_left_auto := false }
    | .keyword kw =>
      if Faga.eqIgnoreAsciiCase kw ( "auto".toList) then
        { st with margin_left_auto := true }
      else st
    | _ => st
  else if property = ( "margin-right".toList) then
    match value with
    | .length m u =>
      { st with
        margin_right := convert_length R m u st.font_size
        margin_right_auto := false }
    | .keyword kw =>
      if Faga.eqIgnoreAsciiCase kw ( "auto".toList) then
        { st with margin_right_auto := true }
      else st
    | _ => st
  else if property = ( "padding".toList) then
    match value with
    | .length p u =>
      let padding := convert_length R p u st.font_size
      { st with
        padding_top := padding
        padding_bottom := padding
        padding_left := padding
        padding_right := padding }
    | _ => st
  else if property = ( "padding-top".toList) then
    match value with
    | .length p u =>
      { st with padding_top := convert_length R p u st.font_size }
    | _ => st
  else if property = ( "padding-bottom".toList) then
    match value with
    | .length p u =>
      { st with padding_bottom := convert_length R p u st.font_size }
    | _ => st
  else if property = ( "padding-left".toList) then
    match value with
    | .length p u =>
      { st with padding_left := convert_length R p u st.font_size }
    | _ => st
  else if property = ( "padding-right".toList) then
    match value with
    | .length p u =>
      { st with padding_right := convert_length R p u st.font_size }
    | _ => st
  else if property = ( "text-align".toList) then
    match value with
    | .keyword v =>
      { st with text_align :=
        if v = ( "center".toList) then .center
        else if v = ( "right".toList) then .right
        else if v = ( "justify".toList) then .justify
        else .left }
    | _ => st
  else if property = ( "text-decoration".toList) then
    match value with
    | .keyword v =>
      { st with text_decoration :=
        if v = ( "underline".toList) then .underline
        else if v = ( "line-through".toList) then .lineThrough
        else .none }
    | _ => st
  else if property = ( "line-height".toList) then
    match value with
    | .number n => { st with line_height := n }
    | .length l u =>
      { st with line_height :=
        convert_length R l u st.font_size / st.font_size }
    | _ => st
  else if property = ( "width".toList) then
    match value with
    | .length w u =>
      (match u with
       | .vw => { st with width_percent := some w }
       | .percent => { st with width_percent := some w }
       | _ =>
         { st with width := some (convert_length R w u st.font_size) })
    | .percentage p => { st with width_percent := some p }
    | .keyword kw =>
      if kw = ( "auto".toList) then
        { st with width := none, width_percent := none }
      else st
    | _ => st
  else st

/-- HtmlRenderer::apply_declarations_with_parent: fold the declaration map
    through apply_one. -/
def apply_declarations_with_parent (R : HtmlRenderer)
    (declarations : List (Str × Faga.CssP.CssValue))
    (st : ComputedStyles) (parent_font_size : ℚ) : ComputedStyles :=
  declarations.foldl
    (fun acc pv => apply_one R pv.1 pv.2 acc parent_font_size) st

/-- HtmlRenderer::apply_stylesheet_styles_with_parent: every selector of
    every rule that matches applies the rule's declarations. -/
def apply_stylesheet_styles_with_parent (R : HtmlRenderer)
    (sheet : Faga.CssP.Stylesheet) (tag : Str) (id : Option Str)
    (classes : List Str) (st : ComputedStyles) (parent_font_size : ℚ) :
    ComputedStyles :=
  sheet.rules.foldl
    (fun acc rule =>
      rule.selectors.foldl
        (fun acc2 sel =>
          if selector_matches sel tag id classes then
            apply_declarations_with_parent R rule.declarations acc2
              parent_font_size
          else acc2) acc) st

/-- HtmlRenderer::compute_styles from renderer.rs: defaults, the four
    inherited fields, tag defaults, the default stylesheet, the page
    stylesheets in registration order, then the inline style attribute
    last. -/
def compute_styles (R : HtmlRenderer) (elem : Element)
    (parent_styles : ComputedStyles) : ComputedStyles :=
  let parent_font_size := parent_styles.font_size
  let styles0 :=
    { ComputedStyles.default with
      font_size := parent_font_size
      color := parent_styles.color
      line_height := parent_styles.line_height
      text_align := parent_styles.text_align }
  let styles1 := apply_tag_defaults R elem.tag_name styles0
  let id := Faga.alGet elem.attributes ( "id".toList)
  let classes := ((Faga.alGet elem.attributes
    ( "class".toList)).map Faga.splitWs).getD []
  let styles2 := apply_stylesheet_styles_with_parent R R.default_stylesheet
    elem.tag_name id classes styles1 parent_font_size
  let styles3 := R.page_stylesheets.foldl
    (fun acc sheet => apply_stylesheet_styles_with_parent R sheet
      elem.tag_name id classes acc parent_font_size) styles2
  match Faga.alGet elem.attributes ( "style".toList) with
  | some inline_style =>
    apply_declarations_with_parent R
      (Faga.CssP.parse_inline_style inline_style) styles3 parent_font_size
  | none => styles3

end Renderer

end Faga

/-! ### Claim C6: cascade order -/

theorem apply_one_color (R : Faga.Renderer.HtmlRenderer)
    (st : Faga.Renderer.ComputedStyles) (pfs : ℚ)
    (c : Faga.CssP.CssColor) :
    Faga.Renderer.apply_one R ( "color".toList) (.color c) st pfs
      = { st with
          color := Faga.Renderer.RenderColor.rgba c.r c.g c.b c.a } := by
  rw [Faga.Renderer.apply_one, if_neg (by decide), if_neg (by decide),
    if_neg (by decide), if_neg (by decide), if_neg (by decide),
    if_pos rfl]

theorem selector_matches_div (idv : Option Faga.Str)
    (classes : List Faga.Str) :
    Faga.Renderer.selector_matches ( "div".toList) ( "div".toList)
      idv classes = true := rfl

theorem apply_sheet_single_color (R : Faga.Renderer.HtmlRenderer)
    (idv : Option Faga.Str) (classes : List Faga.Str)
    (st : Faga.Renderer.ComputedStyles) (pfs : ℚ)
    (c : Faga.CssP.CssColor) :
    Faga.Renderer.apply_stylesheet_styles_with_parent R
      ⟨[⟨[( "div".toList)], [(( "color".toList), .color c)]⟩]⟩
      ( "div".toList) idv classes st pfs
      = { st with
          color := Faga.Renderer.RenderColor.rgba c.r c.g c.b c.a } := by
  rw [Faga.Renderer.apply_stylesheet_styles_with_parent]
  simp only [List.foldl_cons, List.foldl_nil, selector_matches_div,
    if_true, Faga.Renderer.apply_declarations_with_parent, apply_one_color]

/-- C6: a declaration in the element's inline style attribute is applied
    after every stylesheet, so it wins for the same property (an inline
    color wins over any rule of any stylesheet); and when two rules in
    different page stylesheets match the same element and set the same
    property, the later-registered stylesheet's value is the resolved
    one. -/
theorem c6_cascade_order
    (R : Faga.Renderer.HtmlRenderer) (elem : Faga.Renderer.Element)
    (parent : Faga.Renderer.ComputedStyles) (s : Faga.Str)
    (c : Faga.CssP.CssColor)
    (hstyle : Faga.alGet elem.attributes ( "style".toList) = some s)
    (hparse : Faga.CssP.parse_inline_style s
      = [(( "color".toList), .color c)])
    (ds : Faga.CssP.Stylesheet) (L : List Faga.CssP.Stylesheet)
    (bfs vw vh : ℚ) (attrs : List (Faga.Str × Faga.Str))
    (chs : List Faga.Renderer.DomNode) (sts : List (Faga.Str × Faga.Str))
    (parent2 : Faga.Renderer.ComputedStyles) (c1 c2 : Faga.CssP.CssColor)
    (hnone : Faga.alGet attrs ( "style".toList) = none) :
    (Faga.Renderer.compute_styles R elem parent).color
      = Faga.Renderer.RenderColor.rgba c.r c.g c.b c.a
    ∧ (Faga.Renderer.compute_styles
        ⟨ds, L ++ [⟨[⟨[( "div".toList)], [(( "color".toList), .color c1)]⟩]⟩,
          ⟨[⟨[( "div".toList)], [(( "color".toList), .color c2)]⟩]⟩],
          bfs, vw, vh⟩
        (.mk ( "div".toList) attrs chs sts) parent2).color
      = Faga.Renderer.RenderColor.rgba c2.r c2.g c2.b c2.a := by
  constructor
  · rw [Faga.Renderer.compute_styles]
    simp only [hstyle, hparse, Faga.Renderer.apply_declarations_with_parent,
      List.foldl_cons, List.foldl_nil, apply_one_color]
  · rw [Faga.Renderer.compute_styles]
    simp only [Faga.Renderer.Element.attributes,
      Faga.Renderer.Element.tag_name, hnone, List.foldl_append,
      List.foldl_cons, List.foldl_nil, apply_sheet_single_color]

/-- Witness for C6: inline style "color: red" beats a page rule that sets
    blue on div, and of two page stylesheets both setting the div color the
    later-registered one (red) wins. -/
theorem c6_cascade_order_witness :
    (Faga.Renderer.compute_styles
        ⟨⟨[]⟩, [⟨[⟨[( "div".toList)],
          [(( "color".toList),
            .color (Faga.CssP.CssColor.rgb 0 0 255))]⟩]⟩], 16, 1200, 800⟩
        (.mk ( "div".toList)
          [(( "style".toList), ( "color: red".toList))] [] [])
        Faga.Renderer.ComputedStyles.default).color
      = Faga.Renderer.RenderColor.rgba 255 0 0 1
    ∧ (Faga.Renderer.compute_styles
        ⟨⟨[]⟩, [⟨[⟨[( "div".toList)],
            [(( "color".toList),
              .color (Faga.CssP.CssColor.rgb 0 0 255))]⟩]⟩,
          ⟨[⟨[( "div".toList)],
            [(( "color".toList),
              .color (Faga.CssP.CssColor.rgb 255 0 0))]⟩]⟩],
          16, 1200, 800⟩
        (.mk ( "div".toList) [] [] [])
        Faga.Renderer.ComputedStyles.default).color
      = Faga.Renderer.RenderColor.rgba 255 0 0 1 := by
  have h := c6_cascade_order
    ⟨⟨[]⟩, [⟨[⟨[( "div".toList)],
      [(( "color".toList),
        .color (Faga.CssP.CssColor.rgb 0 0 255))]⟩]⟩], 16, 1200, 800⟩
    (.mk ( "div".toList)
      [(( "style".toList), ( "color: red".toList))] [] [])
    Faga.Renderer.ComputedStyles.default ( "color: red".toList)
    (Faga.CssP.CssColor.rgb 255 0 0) rfl
    (by with_unfolding_all rfl)
    ⟨[]⟩ [] 16 1200 800 [] [] [] Faga.Renderer.ComputedStyles.default
    (Faga.CssP.CssColor.rgb 0 0 255) (Faga.CssP.CssColor.rgb 255 0 0) rfl
  exact ⟨h.1, h.2⟩

namespace Faga

namespace Renderer

/-- RenderNodeType from src/src/parser/renderer.rs. -/
inductive RenderNodeType where
  | block
  | inlineNode
  | inlineBlock
  | listItem
  | table
  | tableRow
  | tableCell
  | hidden
  | text
deriving DecidableEq

/-- StyledText from src/src/parser/renderer.rs. -/
structure StyledText where
  text : Str
  styles : ComputedStyles
  is_block : Bool
  depth : Nat
  href : Option Str
deriving DecidableEq

/-- RenderNode from src/src/parser/renderer.rs. -/
inductive RenderNode where
  | mk (node_type : RenderNodeType) (styles : ComputedStyles)
      (children : List RenderNode) (text : Str) (tag : Str)
      (href : Option Str)

/-- `node.href.as_deref().or(parent_href)` at the top of flatten_node. -/
def currentHref (hr parent_href : Option Str) : Option Str :=
  match hr with
  | some h => some h
  | none => parent_href

/-- The guard on the leading newline marker in flatten_node:
    `!result.is_empty() && result.last().map(|l| !l.text.ends_with(nl)).unwrap_or(false)`. -/
def needsNewlineBefore (result : List StyledText) : Bool :=
  match result.getLast? with
  | some l => !(l.text.getLast? == some '\n')
  | none => false

mutual

/-- flatten_node from src/src/parser/renderer.rs: hidden nodes emit nothing,
    text nodes emit their run when non-blank, block and list-item nodes emit
    a leading newline marker only when the output so far is non-empty and
    does not already end with a newline, a bullet run for list items, the
    flattened children, and an unconditional trailing newline marker; other
    node types just flatten their children. -/
def flatten_node (node : RenderNode) (result : List StyledText)
    (depth : Nat) (parent_href : Option Str) : List StyledText :=
  match node with
  | .mk nt st cs tx _tg hr =>
    match nt with
    | .hidden => result
    | .text =>
        if Faga.trimStr tx = [] then result
        else result ++ [⟨tx, st, false, depth, currentHref hr parent_href⟩]
    | .block =>
        let r1 :=
          if needsNewlineBefore result then
            result ++ [⟨( "\n".toList), st, true, depth, none⟩]
          else result
        let r2 := flatten_nodes cs r1 (depth + 1) (currentHref hr parent_href)
        r2 ++ [⟨( "\n".toList), st, true, depth, none⟩]
    | .listItem =>
        let r1 :=
          if needsNewlineBefore result then
            result ++ [⟨( "\n".toList), st, true, depth, none⟩]
          else result
        let r2 := r1 ++ [⟨( "• ".toList), st, false, depth, none⟩]
        let r3 := flatten_nodes cs r2 (depth + 1) (currentHref hr parent_href)
        r3 ++ [⟨( "\n".toList), st, true, depth, none⟩]
    | _ => flatten_nodes cs result depth (currentHref hr parent_href)

/-- The child loop of flatten_node. -/
def flatten_nodes (cs : List RenderNode) (result : List StyledText)
    (depth : Nat) (href : Option Str) : List StyledText :=
  match cs with
  | [] => result
  | c :: rest => flatten_nodes rest (flatten_node c result depth href) depth href

end

/-- flatten_render_tree from src/src/parser/renderer.rs. -/
def flatten_render_tree (node : RenderNode) : List StyledText :=
  flatten_node node [] 0 none

end Renderer

end Faga

/-! ### Claim C9: newline markers in the flattened run sequence -/

theorem flatten_node_block (st : Faga.Renderer.ComputedStyles)
    (cs : List Faga.Renderer.RenderNode) (tx tg : Faga.Str)
    (hr : Option Faga.Str) (result : List Faga.Renderer.StyledText)
    (depth : Nat) (href : Option Faga.Str) :
    Faga.Renderer.flatten_node (.mk .block st cs tx tg hr) result depth href
      = Faga.Renderer.flatten_nodes cs
          (if Faga.Renderer.needsNewlineBefore result then
            result ++ [⟨( "\n".toList), st, true, depth, none⟩]
          else result)
          (depth + 1) (Faga.Renderer.currentHref hr href)
        ++ [⟨( "\n".toList), st, true, depth, none⟩] := by
  rw [Faga.Renderer.flatten_node]

theorem needsNewlineBefore_concat_newline
    (l : List Faga.Renderer.StyledText) (s : Faga.Renderer.ComputedStyles)
    (b : Bool) (d : Nat) (h : Option Faga.Str) :
    Faga.Renderer.needsNewlineBefore
      (l ++ [⟨( "\n".toList), s, b, d, h⟩]) = false := by
  simp [Faga.Renderer.needsNewlineBefore, List.getLast?_concat]

def c9Tree : Faga.Renderer.RenderNode :=
  .mk .block Faga.Renderer.ComputedStyles.default
    [.mk .block Faga.Renderer.ComputedStyles.default [] [] [] none] [] [] none

/-- C9 counterexample: flattening a block node whose only child is an empty
    block node yields exactly two adjacent newline-marker runs, with no
    bullet run between them: the child's unconditional trailing marker is
    immediately followed by the parent's unconditional trailing marker, so
    consecutive block boundaries are not collapsed into a single newline
    marker. -/
theorem c9_counterexample :
    Faga.Renderer.flatten_render_tree c9Tree
      = [⟨( "\n".toList), Faga.Renderer.ComputedStyles.default, true, 1, none⟩,
         ⟨( "\n".toList), Faga.Renderer.ComputedStyles.default, true, 0, none⟩] := by
  simp [Faga.Renderer.flatten_render_tree, c9Tree, flatten_node_block,
    Faga.Renderer.flatten_nodes, Faga.Renderer.needsNewlineBefore,
    Faga.Renderer.currentHref]

/-- C9 (amended): in flatten_node, only the LEADING newline marker of a
    block node is subject to collapsing (it is emitted only when the output
    so far is non-empty and does not already end with a newline), while the
    trailing newline marker is pushed unconditionally.  Consequently a block
    node always ends its output with a newline marker, and a block node
    whose last child is itself an (empty) block node ends its output with
    two adjacent newline-marker runs, for every starting accumulator. -/
theorem c9_adjacent_newline_markers
    (st st2 : Faga.Renderer.ComputedStyles)
    (cs : List Faga.Renderer.RenderNode) (tx tg : Faga.Str)
    (hr : Option Faga.Str) (result : List Faga.Renderer.StyledText)
    (depth : Nat) (href : Option Faga.Str) :
    (∃ l, Faga.Renderer.flatten_node (.mk .block st cs tx tg hr)
        result depth href
      = l ++ [⟨( "\n".toList), st, true, depth, none⟩])
    ∧ (Faga.Renderer.needsNewlineBefore result = false →
        Faga.Renderer.flatten_node (.mk .block st cs tx tg hr)
          result depth href
        = Faga.Renderer.flatten_nodes cs result (depth + 1)
            (Faga.Renderer.currentHref hr href)
          ++ [⟨( "\n".toList), st, true, depth, none⟩])
    ∧ (∃ l, Faga.Renderer.flatten_node
          (.mk .block st [.mk .block st2 [] [] [] none] tx tg hr)
          result depth href
        = l ++ [⟨( "\n".toList), st2, true, depth + 1, none⟩,
            ⟨( "\n".toList), st, true, depth, none⟩]) := by
  refine ⟨⟨_, flatten_node_block st cs tx tg hr result depth href⟩, ?_, ?_⟩
  · intro h
    rw [flatten_node_block, if_neg (by simp [h])]
  · by_cases hc : Faga.Renderer.needsNewlineBefore result = true
    · refine ⟨result ++ [⟨( "\n".toList), st, true, depth, none⟩], ?_⟩
      rw [flatten_node_block, if_pos hc]
      simp only [Faga.Renderer.flatten_nodes]
      rw [flatten_node_block,
        if_neg (by simp [Faga.Renderer.needsNewlineBefore,
          List.getLast?_concat])]
      simp only [Faga.Renderer.flatten_nodes, List.append_assoc,
        List.cons_append, List.nil_append]
    · refine ⟨result, ?_⟩
      rw [flatten_node_block, if_neg hc]
      simp only [Faga.Renderer.flatten_nodes]
      rw [flatten_node_block, if_neg hc]
      simp only [Faga.Renderer.flatten_nodes, List.append_assoc,
        List.cons_append, List.nil_append]

/-- Witness for C9: at the empty accumulator, a childless block node
    flattens to exactly its trailing marker (the leading-marker guard is
    false on empty output), and the two-child-level tree ends with two
    adjacent newline markers. -/
theorem c9_adjacent_newline_markers_witness :
    (Faga.Renderer.flatten_node
        (.mk .block Faga.Renderer.ComputedStyles.default [] [] [] none)
        [] 0 none
      = Faga.Renderer.flatten_nodes [] [] 1 none
        ++ [⟨( "\n".toList), Faga.Renderer.ComputedStyles.default,
            true, 0, none⟩])
    ∧ ∃ l, Faga.Renderer.flatten_node
        (.mk .block Faga.Renderer.ComputedStyles.default
          [.mk .block Faga.Renderer.ComputedStyles.default [] [] [] none]
          [] [] none) [] 0 none
      = l ++ [⟨( "\n".toList), Faga.Renderer.ComputedStyles.default,
            true, 1, none⟩,
          ⟨( "\n".toList), Faga.Renderer.ComputedStyles.default,
            true, 0, none⟩] :=
  ⟨(c9_adjacent_newline_markers Faga.Renderer.ComputedStyles.default
      Faga.Renderer.ComputedStyles.default [] [] [] none [] 0 none).2.1 rfl,
   (c9_adjacent_newline_markers Faga.Renderer.ComputedStyles.default
      Faga.Renderer.ComputedStyles.default [] [] [] none [] 0 none).2.2⟩
